import Mathlib

/-!
# MidiController (src/hardware/midiController.cpp)

A shallow embedding of the X-Touch MIDI bridge and the properties proved of it.

Conventions of the embedding:

* An `unsigned char` is a `Fin 256`; a message (`std::vector<unsigned char>`) is a
  list of bytes.  Arithmetic on bytes is done after promotion, on `Nat`.
* `float` and `double` quantities are represented by the exact rational value of the
  expression that computes them; binary rounding is not part of the model.
* An element access `v[i]` past the end of a vector or array has no defined result:
  functions that perform such accesses return `Option`, and `none` stands for an
  access out of bounds.
* `std::numeric_limits<double>::quiet_NaN()`, used by `checkMidiIn` as the marker of
  "no request", is `none` in an `Option ℚ`.
-/

namespace MidiController

/-- An `unsigned char`. -/
abbrev UChar := Fin 256

/-- Conversion of a non-negative integer to `unsigned char` (reduction modulo 256). -/
def toUChar (n : Nat) : UChar := ⟨n % 256, Nat.mod_lt n (by decide)⟩

/-- Type tag of a decoded input (`enum class InputUpdateType`). -/
inductive InputUpdateType where
  | NONE
  | POWER
  | COOLANT
  deriving DecidableEq, Repr

/-- A decoded input (`struct MidiInputUpdate`), fields in the order of the source. -/
structure MidiInputUpdate where
  type : InputUpdateType
  value : ℚ
  index : Nat
  deriving DecidableEq, Repr

/-- Modelled from the spec: the enumeration `ESystem` is declared in `shipTemplate.h`,
which is not among the sources.  It is the `Unassigned` marker `SYS_None` or a subsystem
identifier; `sys i` is `static_cast<ESystem>(i)`. -/
inductive ESystem where
  | SYS_None
  | sys (i : Nat)
  deriving DecidableEq, Repr

/-- The table `buttonPowerLevels` of `interpretReceivedMessage`. -/
def buttonPowerLevels : List ℚ := [3 / 10, 1, 3 / 2]

/-- The result `{InputUpdateType::NONE, 0.0, 0}`. -/
def noUpdate : MidiInputUpdate := ⟨InputUpdateType.NONE, 0, 0⟩

/-- Embedding of `MidiController::interpretReceivedMessage`.  The switch is on
`message[0] & 0xf0`; `message[1]` is read in both cases of the switch and `message[2]`
only in the two control-change branches.  `buttonIndex` is an `unsigned int`, so
`2 - buttonIndex/8` is computed modulo `2^32`. -/
def interpretReceivedMessage (message : List UChar) : Option MidiInputUpdate := do
  let m0 ← message[0]?
  if m0.val &&& 0xf0 = 0x90 then
    let m1 ← message[1]?
    if 16 ≤ m1.val ∧ m1.val ≤ 39 then
      let buttonIndex := (m1.val - 16) % 4294967296
      let level ← buttonPowerLevels[(2 + 4294967296 - buttonIndex / 8) % 4294967296]?
      pure ⟨InputUpdateType.POWER, level, buttonIndex % 8⟩
    else
      pure noUpdate
  else if m0.val &&& 0xf0 = 0xb0 then
    let m1 ← message[1]?
    if 1 ≤ m1.val ∧ m1.val ≤ 8 then
      let m2 ← message[2]?
      pure ⟨InputUpdateType.POWER, (m2.val : ℚ) * 3 / 127, m1.val - 1⟩
    else if 10 ≤ m1.val ∧ m1.val ≤ 17 then
      let m2 ← message[2]?
      pure ⟨InputUpdateType.COOLANT, (m2.val : ℚ) * 10 / 127, m1.val - 10⟩
    else
      pure noUpdate
  else
    pure noUpdate

/-! ### The slot map -/

/-- The member initialiser of `systemMap` in `midiController.h`: eight times `SYS_None`. -/
def initialSystemMap : List ESystem := List.replicate 8 ESystem.SYS_None

/-- The loop of `update` under "Update system map".  The first argument lists the values
the counter `i` still has to take, the second is `j`.  The loop is left when
`j == systemMap.size()`; a present subsystem is stored at `systemMap[j++]`. -/
def updateSystemMapLoop (hasSystem : Nat → Bool) : List Nat → Nat → List ESystem → List ESystem
  | [], _, systemMap => systemMap
  | i :: rest, j, systemMap =>
    if j = systemMap.length then systemMap
    else if hasSystem i then
      updateSystemMapLoop hasSystem rest (j + 1) (systemMap.set j (ESystem.sys i))
    else updateSystemMapLoop hasSystem rest j systemMap

/-- The slot-mapping step of `update`: `j = 0` and `i` runs over `0 .. SYS_COUNT-1`.
`SYS_COUNT` (declared in `shipTemplate.h`) and the test `my_spaceship->hasSystem` are
parameters. -/
def updateSystemMap (SYS_COUNT : Nat) (hasSystem : Nat → Bool) (systemMap : List ESystem) :
    List ESystem :=
  updateSystemMapLoop hasSystem (List.range SYS_COUNT) 0 systemMap

/-! ### The input phase -/

/-- A command issued to the ship: `commandSetSystemPowerRequest(system, level)` or
`commandSetSystemCoolantRequest(system, level)`. -/
inductive Command where
  | setSystemPowerRequest (system : ESystem) (level : ℚ)
  | setSystemCoolantRequest (system : ESystem) (level : ℚ)
  deriving DecidableEq, Repr

/-- Kind of a command, named as the update type it comes from. -/
def Command.kind : Command → InputUpdateType
  | Command.setSystemPowerRequest _ _ => InputUpdateType.POWER
  | Command.setSystemCoolantRequest _ _ => InputUpdateType.COOLANT

/-- Subsystem a command is addressed to. -/
def Command.system : Command → ESystem
  | Command.setSystemPowerRequest s _ => s
  | Command.setSystemCoolantRequest s _ => s

/-- Level a command carries. -/
def Command.level : Command → ℚ
  | Command.setSystemPowerRequest _ v => v
  | Command.setSystemCoolantRequest _ v => v

/-- The arrays `newPowerRequests` and `newCoolantRequests` after the first loop of
`checkMidiIn`: `std::array<float, SYS_COUNT>` whose entries `0 .. n-1` are set to NaN
(`n` is `systemMap.size()`).  The store needs `n ≤ SYS_COUNT`.  Entries from `n` on are
not initialised by the source; no later statement reads them. -/
def initRequests (SYS_COUNT n : Nat) : Option (List (Option ℚ)) :=
  if n ≤ SYS_COUNT then some (List.replicate SYS_COUNT none) else none

/-- The store `a[i] = v` into an array. -/
def storeAt {α : Type} (a : List α) (i : Nat) (v : α) : Option (List α) :=
  if i < a.length then some (a.set i v) else none

/-- The `while (true)` loop of `checkMidiIn` over the queue of the input port.
`getMessage` yields the next queued message, or the empty message when there is none,
on which the loop is left.  The result is the two arrays and what is left of the queue. -/
def drainLoop : List (List UChar) → List (Option ℚ) → List (Option ℚ) →
    Option (List (Option ℚ) × List (Option ℚ) × List (List UChar))
  | [], newPowerRequests, newCoolantRequests => some (newPowerRequests, newCoolantRequests, [])
  | message :: rest, newPowerRequests, newCoolantRequests =>
    if message = [] then some (newPowerRequests, newCoolantRequests, rest)
    else do
      let update ← interpretReceivedMessage message
      if update.type = InputUpdateType.POWER then
        let p ← storeAt newPowerRequests update.index (some update.value)
        drainLoop rest p newCoolantRequests
      else if update.type = InputUpdateType.COOLANT then
        let c ← storeAt newCoolantRequests update.index (some update.value)
        drainLoop rest newPowerRequests c
      else
        drainLoop rest newPowerRequests newCoolantRequests

/-- The last loop of `checkMidiIn`, over the values the counter `i` still has to take:
a command for every entry that is not NaN, addressed to `systemMap[i]`. -/
def issueLoop (systemMap : List ESystem) (newPowerRequests newCoolantRequests : List (Option ℚ)) :
    List Nat → Option (List Command)
  | [] => some []
  | i :: rest => do
    let p ← newPowerRequests[i]?
    let c ← newCoolantRequests[i]?
    let system ← systemMap[i]?
    let later ← issueLoop systemMap newPowerRequests newCoolantRequests rest
    let powerCommand := match p with
      | some v => [Command.setSystemPowerRequest system v]
      | none => []
    let coolantCommand := match c with
      | some v => [Command.setSystemCoolantRequest system v]
      | none => []
    pure (powerCommand ++ coolantCommand ++ later)

/-- Embedding of `MidiController::checkMidiIn`: the commands issued to the ship, in order,
and what is left of the input queue. -/
def checkMidiIn (SYS_COUNT : Nat) (systemMap : List ESystem) (queue : List (List UChar)) :
    Option (List Command × List (List UChar)) := do
  let newPowerRequests ← initRequests SYS_COUNT systemMap.length
  let newCoolantRequests ← initRequests SYS_COUNT systemMap.length
  let (p, c, left) ← drainLoop queue newPowerRequests newCoolantRequests
  let commands ← issueLoop systemMap p c (List.range systemMap.length)
  pure (commands, left)

/-! ### The output phase -/

/-- Modelled from the spec: the entries of `ship->systems` are declared outside the
sources; these are the four fields `sendMidiOut` reads. -/
structure ShipSystem where
  power_request : ℚ
  coolant_request : ℚ
  heat_level : ℚ
  health : ℚ
  deriving DecidableEq, Repr

/-- The function `round` of `<cmath>`: nearest integer, halfway cases away from zero. -/
def cRound (x : ℚ) : ℤ := if 0 ≤ x then ⌊x + 1 / 2⌋ else -⌊-x + 1 / 2⌋

/-- Conversion of an integral `double` to `unsigned char`, defined when the value is
representable. -/
def doubleToUChar (r : ℤ) : Option UChar :=
  if 0 ≤ r ∧ r ≤ 255 then some (toUChar r.toNat) else none

/-- Conversion of an integral `double` to `int`, defined when the value is representable. -/
def doubleToInt (r : ℤ) : Option ℤ :=
  if -2147483648 ≤ r ∧ r ≤ 2147483647 then some r else none

/-- Conversion of an `int` to `unsigned char` (reduction modulo 256). -/
def intToUChar (n : ℤ) : UChar := toUChar (n % 256).toNat

/-- The table `heatThresholds` of `sendMidiOut`. -/
def heatThresholds : List ℚ := [1 / 4, 1 / 2, 3 / 4, 9 / 10]

/-- The message of the inner loop of `sendMidiOut` for slot `i` and row `j`. -/
def ledMessage (system : ShipSystem) (i j : Nat) : Option (List UChar) := do
  let threshold ← heatThresholds[j]?
  let blinkThreshold ← heatThresholds[3]?
  let ledOn : Bool := decide (threshold ≤ system.heat_level)
  let blinking : Bool := decide (blinkThreshold ≤ system.heat_level)
  pure [0x91, toUChar ((2 - j) * 8 + i), if ledOn then (if blinking then 3 else 2) else 0]

/-- The inner loop of `sendMidiOut` over the values `j` still has to take. -/
def ledLoop (system : ShipSystem) (i : Nat) : List Nat → Option (List (List UChar))
  | [] => some []
  | j :: rest => do
    let message ← ledMessage system i j
    let later ← ledLoop system i rest
    pure (message :: later)

/-- The messages one iteration of the outer loop of `sendMidiOut` sends for slot `i`, from
the telemetry `system` of `ship->systems[systemMap[i]]`. -/
def slotMessages (system : ShipSystem) (i : Nat) : Option (List (List UChar)) := do
  let fader ← doubleToUChar (cRound (system.power_request / 3 * 127))
  let encoder ← doubleToUChar (cRound (system.coolant_request / 10 * 127))
  let leds ← ledLoop system i (List.range 3)
  let damage ← doubleToInt (cRound ((1 - system.health) * 127))
  pure ([[0xb0, toUChar (i + 1), fader], [0xb0, toUChar (10 + i), encoder]] ++ leds ++
    [[0xb0, toUChar (18 + i), intToUChar (max 0 damage)]])

/-- The outer loop of `sendMidiOut` over the values `i` still has to take.  The lookup
`ship->systems[systemMap[i]]` is made for the entry of every slot; `systems` gives what it
yields for each entry. -/
def sendLoop (systems : ESystem → ShipSystem) (systemMap : List ESystem) :
    List Nat → Option (List (List UChar))
  | [] => some []
  | i :: rest => do
    let system ← systemMap[i]?
    let messages ← slotMessages (systems system) i
    let later ← sendLoop systems systemMap rest
    pure (messages ++ later)

/-- Embedding of `MidiController::sendMidiOut`: the messages sent, in order. -/
def sendMidiOut (systems : ESystem → ShipSystem) (systemMap : List ESystem) :
    Option (List (List UChar)) :=
  sendLoop systems systemMap (List.range systemMap.length)

/-! ### Initialisation and the update tick -/

/-- The loop of `sendInitialization` over the values the counter `i` still has to take: one
message `{0b10110001, i, 2}` for each. -/
def sendInitializationLoop : List Nat → List (List UChar)
  | [] => []
  | i :: rest => [0xb1, toUChar i, 2] :: sendInitializationLoop rest

/-- Embedding of `MidiController::sendInitialization`: the messages sent, in order; `i` runs
from 10 to 25 inclusive. -/
def sendInitialization : List (List UChar) :=
  sendInitializationLoop (List.range' 10 16)

/-- The data members of `MidiController` that `update` reads and writes. -/
structure State where
  timeSinceUpdate : ℚ
  systemMap : List ESystem
  deriving DecidableEq

/-- The members as initialised in `midiController.h`. -/
def initialState : State := ⟨0, initialSystemMap⟩

/-- Modelled from the spec: the vessel model behind `my_spaceship`, declared outside the
sources: the presence test `hasSystem` and the telemetry `systems` that `sendMidiOut` finds
when it reads. -/
structure PlayerSpaceship where
  hasSystem : Nat → Bool
  systems : ESystem → ShipSystem

/-- What one call of `update` does to its surroundings: the commands issued to the ship, the
messages of the call of `sendMidiOut` (`none` when it is not called), and what is left of the
input queue. -/
structure Effects where
  commands : List Command
  sent : Option (List (List UChar))
  queue : List (List UChar)
  deriving DecidableEq

/-- Embedding of `MidiController::update`.  `my_spaceship` is `none` for a null pointer;
`midiinOpen` and `midioutOpen` are `midiin->isPortOpen()` and `midiout->isPortOpen()`; `queue`
is the queue of the input port at the call. -/
def update (SYS_COUNT : Nat) (midiinOpen midioutOpen : Bool)
    (my_spaceship : Option PlayerSpaceship) (queue : List (List UChar)) (delta : ℚ)
    (state : State) : Option (State × Effects) :=
  match my_spaceship with
  | none => some (state, ⟨[], none, queue⟩)
  | some ship => do
    let systemMap := updateSystemMap SYS_COUNT ship.hasSystem state.systemMap
    let (commands, left) ←
      if midiinOpen then checkMidiIn SYS_COUNT systemMap queue else some ([], queue)
    if midioutOpen then
      let timeSinceUpdate := state.timeSinceUpdate + delta
      if 3 / 10 ≤ timeSinceUpdate then
        let sent ← sendMidiOut ship.systems systemMap
        pure (⟨0, systemMap⟩, ⟨commands, some sent, left⟩)
      else
        pure (⟨timeSinceUpdate, systemMap⟩, ⟨commands, none, left⟩)
    else
      pure (⟨state.timeSinceUpdate, systemMap⟩, ⟨commands, none, left⟩)

/-- What one tick brings: the elapsed time, the ship pointer and the queued input. -/
structure Tick where
  delta : ℚ
  my_spaceship : Option PlayerSpaceship
  queue : List (List UChar)

/-- A sequence of calls of `update`, one per tick: the final members and the effects of each
call, in order. -/
def run (SYS_COUNT : Nat) (midiinOpen midioutOpen : Bool) :
    List Tick → State → Option (State × List Effects)
  | [], state => some (state, [])
  | tick :: rest, state => do
    let (next, effects) ←
      update SYS_COUNT midiinOpen midioutOpen tick.my_spaceship tick.queue tick.delta state
    let (final, later) ← run SYS_COUNT midiinOpen midioutOpen rest next
    pure (final, effects :: later)

/-! ### Reference definitions for the statements -/

/-- The updates the messages of a queue decode to, in queue order. -/
def decodedUpdates (queue : List (List UChar)) : List MidiInputUpdate :=
  queue.filterMap interpretReceivedMessage

/-- The value of the last message of the queue that decodes to the pair `(kind, slot)`,
if there is one. -/
def lastValue (kind : InputUpdateType) (slot : Nat) (queue : List (List UChar)) : Option ℚ :=
  (((decodedUpdates queue).filter
    (fun u => decide (u.type = kind ∧ u.index = slot))).getLast?).map MidiInputUpdate.value

/-- The commands of one slot as section 4.3 of the specification words them: a set-power
command if a power value is pending, then a set-coolant command if a coolant value is pending,
both addressed to the subsystem of the slot. -/
def slotCommands (system : ESystem) (power coolant : Option ℚ) : List Command :=
  (power.map (Command.setSystemPowerRequest system)).toList ++
    (coolant.map (Command.setSystemCoolantRequest system)).toList

/-- The commands of the input phase as the specification words them: for every slot in
ascending order, the commands of the slot, where the pending value of a kind is the value of
the last queued message decoding to that kind and slot. -/
def expectedCommands (systemMap : List ESystem) (queue : List (List UChar)) : List Command :=
  (List.range systemMap.length).flatMap (fun i =>
    slotCommands (systemMap.getD i ESystem.SYS_None)
      (lastValue InputUpdateType.POWER i queue) (lastValue InputUpdateType.COOLANT i queue))

/-- The present subsystems, in ascending enumeration order. -/
def presentSystems (SYS_COUNT : Nat) (hasSystem : Nat → Bool) : List Nat :=
  (List.range SYS_COUNT).filter hasSystem

/-- The three input patterns as the specification lists them, channel nibble included:
note-on with status low nibble 1 and `data1` in `[16,39]`; control-change with status low
nibble 0 and `data1` in `[1,8]` or in `[10,17]`. -/
def recognised (status data1 : UChar) : Prop :=
  (status.val / 16 = 0x9 ∧ status.val % 16 = 1 ∧ 16 ≤ data1.val ∧ data1.val ≤ 39) ∨
  (status.val / 16 = 0xb ∧ status.val % 16 = 0 ∧ 1 ≤ data1.val ∧ data1.val ≤ 8) ∨
  (status.val / 16 = 0xb ∧ status.val % 16 = 0 ∧ 10 ≤ data1.val ∧ data1.val ≤ 17)

/-- The three input patterns with the channel nibble of the status byte left out. -/
def recognisedAnyChannel (status data1 : UChar) : Prop :=
  (status.val / 16 = 0x9 ∧ 16 ≤ data1.val ∧ data1.val ≤ 39) ∨
  (status.val / 16 = 0xb ∧ 1 ≤ data1.val ∧ data1.val ≤ 8) ∨
  (status.val / 16 = 0xb ∧ 10 ≤ data1.val ∧ data1.val ≤ 17)

/-- The value of the LED of row `j` as the specification words it: off below the threshold of
the row, solid from the threshold on, blinking from 0.9 on. -/
def ledValue (heat_level : ℚ) (j : Nat) : Nat :=
  if heat_level < [1 / 4, 1 / 2, 3 / 4].getD j 0 then 0
  else if heat_level < 9 / 10 then 2
  else 3

/-- The six messages of slot `s` as the specification lists them, bytes as natural numbers. -/
def expectedSlotMessages (system : ShipSystem) (s : Nat) : List (List Nat) :=
  [[0xb0, s + 1, (round (system.power_request / 3 * 127)).toNat],
   [0xb0, 10 + s, (round (system.coolant_request / 10 * 127)).toNat],
   [0x91, (2 - 0) * 8 + s, ledValue system.heat_level 0],
   [0x91, (2 - 1) * 8 + s, ledValue system.heat_level 1],
   [0x91, (2 - 2) * 8 + s, ledValue system.heat_level 2],
   [0xb0, 18 + s, (max 0 (round ((1 - system.health) * 127))).toNat]]

/-- The bytes of a list of messages as natural numbers. -/
def byteValues (messages : List (List UChar)) : List (List Nat) :=
  messages.map (fun m => m.map Fin.val)

/-- Telemetry within the ranges the specification declares: power request in `[0,3]`, coolant
request in `[0,10]`, health in `[0,1]`; the heat level is free. -/
def ShipSystem.inRange (system : ShipSystem) : Prop :=
  0 ≤ system.power_request ∧ system.power_request ≤ 3 ∧
  0 ≤ system.coolant_request ∧ system.coolant_request ≤ 10 ∧
  0 ≤ system.health ∧ system.health ≤ 1

/-- The record of a run: for each tick its delta and whether `sendMidiOut` was called. -/
def renderTrace (ticks : List Tick) (effects : List Effects) : List (ℚ × Bool) :=
  (ticks.zip effects).map (fun p => (p.1.delta, p.2.sent.isSome))

/-- The sum of the deltas of the ticks of a record since its last rendering, or of all of
them when there is none. -/
def sinceRendering (record : List (ℚ × Bool)) : ℚ :=
  ((record.reverse.takeWhile (fun p => !p.2)).map Prod.fst).sum

/-- The number of renderings of a record. -/
def renderings (record : List (ℚ × Bool)) : Nat :=
  (record.filter (fun p => p.2)).length

/-- The total elapsed time of a record. -/
def elapsed (record : List (ℚ × Bool)) : ℚ :=
  (record.map Prod.fst).sum

/-- A tick on which `update` meets a ship whose telemetry is in range at every lookup and, when
the input port is open, a queue of decodable messages and room for the 8 pending entries. -/
def Tick.regular (SYS_COUNT : Nat) (midiinOpen : Bool) (tick : Tick) : Prop :=
  ∃ ship, tick.my_spaceship = some ship ∧ (∀ e, (ship.systems e).inRange) ∧
    (midiinOpen = true →
      8 ≤ SYS_COUNT ∧ ∀ m ∈ tick.queue, (interpretReceivedMessage m).isSome = true)

/-- A ship with every subsystem present, idle, cold and undamaged, for the examples. -/
def idleShip : PlayerSpaceship := ⟨fun _ => true, fun _ => ⟨0, 0, 0, 1⟩⟩

/-- A tick of the given delta with the idle ship and nothing queued, for the examples. -/
def idleTick (delta : ℚ) : Tick := ⟨delta, some idleShip, []⟩

instance (status data1 : UChar) : Decidable (recognised status data1) := by
  unfold recognised; infer_instance

instance (status data1 : UChar) : Decidable (recognisedAnyChannel status data1) := by
  unfold recognisedAnyChannel; infer_instance

/-! ## Theorems -/

/-! ### Decoding -/

set_option maxRecDepth 100000 in
theorem land_f0_eq_note_on (s : UChar) : s.val &&& 0xf0 = 0x90 ↔ s.val / 16 = 0x9 := by
  revert s; decide

set_option maxRecDepth 100000 in
theorem land_f0_eq_control_change (s : UChar) : s.val &&& 0xf0 = 0xb0 ↔ s.val / 16 = 0xb := by
  revert s; decide

/-- Decoding of a message of at least three bytes in terms of the high nibble of the status
byte: the form used by the theorems below. -/
theorem interpret_three (s d1 d2 : UChar) (rest : List UChar) :
    interpretReceivedMessage (s :: d1 :: d2 :: rest) =
      if s.val / 16 = 0x9 then
        (if 16 ≤ d1.val ∧ d1.val ≤ 39 then
          (buttonPowerLevels[2 - (d1.val - 16) / 8]?).map
            (fun level => ⟨InputUpdateType.POWER, level, (d1.val - 16) % 8⟩)
        else some noUpdate)
      else if s.val / 16 = 0xb then
        (if 1 ≤ d1.val ∧ d1.val ≤ 8 then
          some ⟨InputUpdateType.POWER, (d2.val : ℚ) * 3 / 127, d1.val - 1⟩
        else if 10 ≤ d1.val ∧ d1.val ≤ 17 then
          some ⟨InputUpdateType.COOLANT, (d2.val : ℚ) * 10 / 127, d1.val - 10⟩
        else some noUpdate)
      else some noUpdate := by
  have hd1 : d1.val < 256 := d1.isLt
  simp only [interpretReceivedMessage, land_f0_eq_note_on, land_f0_eq_control_change]
  simp only [List.getElem?_cons_zero, List.getElem?_cons_succ, Option.bind_eq_bind,
    Option.some_bind, Option.pure_def]
  split_ifs with h1 h2 <;> try rfl
  have e1 : (d1.val - 16) % 4294967296 = d1.val - 16 := Nat.mod_eq_of_lt (by omega)
  have e2 : (2 + 4294967296 - (d1.val - 16) / 8) % 4294967296 = 2 - (d1.val - 16) / 8 := by
    omega
  rw [e1, e2]
  cases buttonPowerLevels[2 - (d1.val - 16) / 8]? <;> rfl

/-- The preset table at the index the button branch computes, for a button note. -/
theorem buttonPowerLevels_lookup (d1 : Nat) (h16 : 16 ≤ d1) (h39 : d1 ≤ 39) :
    buttonPowerLevels[2 - (d1 - 16) / 8]? =
      some (if d1 ≤ 23 then 3 / 2 else if d1 ≤ 31 then 1 else 3 / 10) := by
  interval_cases d1 <;> simp [buttonPowerLevels]

/-- Every decoded update has an index below 8. -/
theorem interpret_index_lt (message : List UChar) (u : MidiInputUpdate)
    (h : interpretReceivedMessage message = some u) : u.index < 8 := by
  simp only [interpretReceivedMessage, Option.bind_eq_bind, Option.pure_def] at h
  cases h0 : message[0]? with
  | none => simp [h0] at h
  | some m0 =>
    simp only [h0, Option.some_bind] at h
    split_ifs at h with a b
    · cases h1 : message[1]? with
      | none => simp [h1] at h
      | some m1 =>
        simp only [h1, Option.some_bind] at h
        split_ifs at h with c
        · cases hl : buttonPowerLevels[(2 + 4294967296 - (m1.val - 16) % 4294967296 / 8) %
            4294967296]? with
          | none => simp [hl] at h
          | some level =>
            simp only [hl, Option.some_bind, Option.some.injEq] at h
            subst h
            exact Nat.mod_lt _ (by decide)
        · simp only [Option.some.injEq] at h
          subst h
          decide
    · cases h1 : message[1]? with
      | none => simp [h1] at h
      | some m1 =>
        simp only [h1, Option.some_bind] at h
        split_ifs at h with c d
        · cases h2 : message[2]? with
          | none => simp [h2] at h
          | some m2 =>
            simp only [h2, Option.some_bind, Option.some.injEq] at h
            subst h
            show m1.val - 1 < 8
            omega
        · cases h2 : message[2]? with
          | none => simp [h2] at h
          | some m2 =>
            simp only [h2, Option.some_bind, Option.some.injEq] at h
            subst h
            show m1.val - 10 < 8
            omega
        · simp only [Option.some.injEq] at h
          subst h
          decide
    · simp only [Option.some.injEq] at h
      subst h
      decide

/-- C1, as stated, fails: the message `[0x90, 16, 127]` matches none of the three patterns of
the specification (its channel nibble is 0, not 1), yet it decodes to a POWER update; likewise
`[0xB1, 1, 64]` (channel nibble 1, not 0). -/
theorem C1_channel_nibble_counterexample :
    (¬ recognised 0x90 16 ∧
      interpretReceivedMessage [0x90, 16, 127] = some ⟨InputUpdateType.POWER, 3 / 2, 0⟩) ∧
    (¬ recognised 0xb1 1 ∧
      interpretReceivedMessage [0xb1, 1, 64] = some ⟨InputUpdateType.POWER, 192 / 127, 0⟩) := by
  refine ⟨⟨by decide, ?_⟩, ⟨by decide, ?_⟩⟩
  · rw [interpret_three]
    rw [if_pos (by decide), if_pos (by decide)]
    rw [buttonPowerLevels_lookup _ (by decide) (by decide)]
    rfl
  · rw [interpret_three]
    rw [if_neg (by decide), if_pos (by decide), if_pos (by decide)]
    have e64 : (64 : UChar).val = 64 := rfl
    have e1 : (1 : UChar).val = 1 := rfl
    rw [e64, e1]
    norm_num

/-- C1, amended: a 3-byte message `[status, data1, data2]` that matches none of the three
patterns with the channel nibble of the status byte disregarded (high nibble `0x9` and `data1`
in `[16,39]`; high nibble `0xB` and `data1` in `[1,8]`; high nibble `0xB` and `data1` in
`[10,17]`) decodes to the update `{NONE, 0.0, 0}`. -/
theorem C1_unrecognised_decodes_to_none (status data1 data2 : UChar)
    (h : ¬ recognisedAnyChannel status data1) :
    interpretReceivedMessage [status, data1, data2] = some noUpdate := by
  rw [interpret_three]
  unfold recognisedAnyChannel at h
  split_ifs with h1 h2 h3 h4 h5
  · exact absurd (Or.inl ⟨h1, h2⟩) h
  · rfl
  · exact absurd (Or.inr (Or.inl ⟨h3, h4⟩)) h
  · exact absurd (Or.inr (Or.inr ⟨h3, h5⟩)) h
  · rfl
  · rfl

/-- Witness of C1 amended: status high nibble `0xA`, and control-change with `data1` equal
to 18. -/
theorem C1_unrecognised_decodes_to_none_witness :
    (¬ recognisedAnyChannel 0xa0 16 ∧
      interpretReceivedMessage [0xa0, 16, 127] = some noUpdate) ∧
    (¬ recognisedAnyChannel 0xb0 18 ∧
      interpretReceivedMessage [0xb0, 18, 64] = some noUpdate) :=
  ⟨⟨by decide, C1_unrecognised_decodes_to_none 0xa0 16 127 (by decide)⟩,
   ⟨by decide, C1_unrecognised_decodes_to_none 0xb0 18 64 (by decide)⟩⟩

/-- C2: a control-change channel-0 message `[0xB0, data1, data2]` with `data1` in `[1,8]` and
`data2` in `[0,127]` decodes to POWER with index `data1 - 1` and value `data2 * 3 / 127`, and
that value lies in `[0, 3]`. -/
theorem C2_fader_decodes_to_power (data1 data2 : UChar)
    (h1 : 1 ≤ data1.val) (h8 : data1.val ≤ 8) (h127 : data2.val ≤ 127) :
    interpretReceivedMessage [0xb0, data1, data2] =
        some ⟨InputUpdateType.POWER, (data2.val : ℚ) * 3 / 127, data1.val - 1⟩ ∧
      0 ≤ (data2.val : ℚ) * 3 / 127 ∧ (data2.val : ℚ) * 3 / 127 ≤ 3 := by
  refine ⟨?_, by positivity, ?_⟩
  · rw [interpret_three, if_neg (by decide), if_pos (by decide), if_pos ⟨h1, h8⟩]
  · have h : (data2.val : ℚ) ≤ 127 := by exact_mod_cast h127
    rw [div_le_iff₀ (by norm_num)]
    linarith

/-- Witness of C2: the fader of slot 2 at mid position. -/
theorem C2_fader_decodes_to_power_witness :
    interpretReceivedMessage [0xb0, 3, 64] =
        some ⟨InputUpdateType.POWER, (((64 : UChar).val : ℚ)) * 3 / 127, (3 : UChar).val - 1⟩ ∧
      0 ≤ (((64 : UChar).val : ℚ)) * 3 / 127 ∧ (((64 : UChar).val : ℚ)) * 3 / 127 ≤ 3 :=
  C2_fader_decodes_to_power 3 64 (by decide) (by decide) (by decide)

/-- C3, as stated, fails: `data2` can be any byte, and for `[0xB0, 10, 255]` the decoded
coolant value is `2550/127`, which is above 10. -/
theorem C3_value_above_ten_counterexample :
    interpretReceivedMessage [0xb0, 10, 255] =
        some ⟨InputUpdateType.COOLANT, 2550 / 127, 0⟩ ∧
      ¬ ((2550 : ℚ) / 127 ≤ 10) := by
  refine ⟨?_, by norm_num⟩
  rw [interpret_three, if_neg (by decide), if_pos (by decide), if_neg (by decide),
    if_pos (by decide)]
  have e255 : (255 : UChar).val = 255 := rfl
  have e10 : (10 : UChar).val = 10 := rfl
  rw [e255, e10]
  norm_num

/-- C3, amended: a control-change channel-0 message `[0xB0, data1, data2]` with `data1` in
`[10,17]` decodes, for every byte `data2`, to COOLANT with index `data1 - 10` and value
`data2 * 10 / 127`; the value is never negative, and it is at most 10 exactly when `data2` is
at most 127. -/
theorem C3_encoder_decodes_to_coolant (data1 data2 : UChar)
    (h10 : 10 ≤ data1.val) (h17 : data1.val ≤ 17) :
    interpretReceivedMessage [0xb0, data1, data2] =
        some ⟨InputUpdateType.COOLANT, (data2.val : ℚ) * 10 / 127, data1.val - 10⟩ ∧
      0 ≤ (data2.val : ℚ) * 10 / 127 ∧
      ((data2.val : ℚ) * 10 / 127 ≤ 10 ↔ data2.val ≤ 127) := by
  refine ⟨?_, by positivity, ?_⟩
  · rw [interpret_three, if_neg (by decide), if_pos (by decide), if_neg (by omega),
      if_pos ⟨h10, h17⟩]
  · rw [div_le_iff₀ (by norm_num)]
    constructor
    · intro h
      have h2 : (data2.val : ℚ) ≤ 127 := by linarith
      exact_mod_cast h2
    · intro h
      have h2 : (data2.val : ℚ) ≤ 127 := by exact_mod_cast h
      linarith

/-- Witness of C3 amended: the encoder of slot 7 at full scale. -/
theorem C3_encoder_decodes_to_coolant_witness :
    interpretReceivedMessage [0xb0, 17, 127] =
        some ⟨InputUpdateType.COOLANT, (((127 : UChar).val : ℚ)) * 10 / 127,
          (17 : UChar).val - 10⟩ ∧
      0 ≤ (((127 : UChar).val : ℚ)) * 10 / 127 ∧
      ((((127 : UChar).val : ℚ)) * 10 / 127 ≤ 10 ↔ (127 : UChar).val ≤ 127) :=
  C3_encoder_decodes_to_coolant 17 127 (by decide) (by decide)

/-- C4: a note-on channel-2 message `[0x91, data1, data2]` with `data1` in `[16,39]` decodes to
POWER with index `(data1 - 16) % 8` and value `T[2 - (data1 - 16) / 8]`, `T = {0.30, 1.0, 1.5}`:
`1.5` for `data1` in `16..23`, `1.0` in `24..31`, `0.30` in `32..39`; the value is one of the
three presets and the result is the same for every `data2`. -/
theorem C4_button_decodes_to_preset (data1 data2 : UChar)
    (h16 : 16 ≤ data1.val) (h39 : data1.val ≤ 39) :
    ∃ level : ℚ,
      buttonPowerLevels[2 - (data1.val - 16) / 8]? = some level ∧
      interpretReceivedMessage [0x91, data1, data2] =
        some ⟨InputUpdateType.POWER, level, (data1.val - 16) % 8⟩ ∧
      (data1.val ≤ 23 → level = 3 / 2) ∧
      (24 ≤ data1.val → data1.val ≤ 31 → level = 1) ∧
      (32 ≤ data1.val → level = 3 / 10) ∧
      (level = 3 / 10 ∨ level = 1 ∨ level = 3 / 2) ∧
      ∀ other : UChar,
        interpretReceivedMessage [0x91, data1, other] =
          interpretReceivedMessage [0x91, data1, data2] := by
  refine ⟨_, buttonPowerLevels_lookup data1.val h16 h39, ?_, ?_, ?_, ?_, ?_, ?_⟩
  · rw [interpret_three, if_pos (by decide), if_pos ⟨h16, h39⟩,
      buttonPowerLevels_lookup data1.val h16 h39]
    rfl
  · intro h
    rw [if_pos h]
  · intro h24 h31
    rw [if_neg (by omega), if_pos h31]
  · intro h32
    rw [if_neg (by omega), if_neg (by omega)]
  · split_ifs
    · exact Or.inr (Or.inr rfl)
    · exact Or.inr (Or.inl rfl)
    · exact Or.inl rfl
  · intro other
    have h9 : (0x91 : UChar).val / 16 = 0x9 := by decide
    rw [interpret_three, interpret_three, if_pos h9, if_pos h9]

/-- Witness of C4: the button of the middle row over slot 3 (note 27). -/
theorem C4_button_decodes_to_preset_witness :
    ∃ level : ℚ,
      buttonPowerLevels[2 - ((27 : UChar).val - 16) / 8]? = some level ∧
      interpretReceivedMessage [0x91, 27, 127] =
        some ⟨InputUpdateType.POWER, level, ((27 : UChar).val - 16) % 8⟩ ∧
      ((27 : UChar).val ≤ 23 → level = 3 / 2) ∧
      (24 ≤ (27 : UChar).val → (27 : UChar).val ≤ 31 → level = 1) ∧
      (32 ≤ (27 : UChar).val → level = 3 / 10) ∧
      (level = 3 / 10 ∨ level = 1 ∨ level = 3 / 2) ∧
      ∀ other : UChar,
        interpretReceivedMessage [0x91, 27, other] =
          interpretReceivedMessage [0x91, 27, 127] :=
  C4_button_decodes_to_preset 27 127 (by decide) (by decide)

/-- C5, as stated, fails: for the 1-byte sequence `[0x90]` the read of `message[1]`, and for the
2-byte sequence `[0xB0, 1]` the read of `message[2]`, is past the end of the message, so no
update is returned; and the 4-byte sequence `[0xB0, 1, 127, 0]`, which is not a 3-byte frame,
decodes to POWER, not to NONE. -/
theorem C5_short_message_counterexample :
    interpretReceivedMessage [0x90] = none ∧ interpretReceivedMessage [0xb0, 1] = none ∧
      interpretReceivedMessage [0xb0, 1, 127, 0] = some ⟨InputUpdateType.POWER, 3, 0⟩ := by
  refine ⟨?_, ?_, ?_⟩
  · simp only [interpretReceivedMessage, land_f0_eq_note_on]
    rfl
  · simp only [interpretReceivedMessage, land_f0_eq_note_on, land_f0_eq_control_change]
    rfl
  · rw [interpret_three, if_neg (by decide), if_pos (by decide), if_pos (by decide)]
    have e127 : (127 : UChar).val = 127 := rfl
    have e1 : (1 : UChar).val = 1 := rfl
    rw [e127, e1]
    norm_num

/-- C5, amended: for every byte sequence of at least 3 bytes every element access of
`interpretReceivedMessage` is in bounds and it returns an update, the one of the first three
bytes; and a non-empty sequence of any length whose status high nibble is neither `0x9` nor
`0xB` decodes to NONE. -/
theorem C5_interpret_defined (message : List UChar) :
    (3 ≤ message.length →
      ∃ u, interpretReceivedMessage message = some u ∧
        interpretReceivedMessage (message.take 3) = some u) ∧
    (∀ (s : UChar) (rest : List UChar), message = s :: rest →
      s.val / 16 ≠ 0x9 → s.val / 16 ≠ 0xb →
      interpretReceivedMessage message = some noUpdate) := by
  constructor
  · intro h
    match message, h with
    | s :: d1 :: d2 :: rest, _ =>
      have e : List.take 3 (s :: d1 :: d2 :: rest) = s :: d1 :: d2 :: [] := rfl
      rw [e, interpret_three, interpret_three]
      have hd1 : d1.val < 256 := d1.isLt
      split_ifs with a b c d e
      · have hl := buttonPowerLevels_lookup d1.val b.1 b.2
        rw [hl]
        exact ⟨_, rfl, rfl⟩
      · exact ⟨_, rfl, rfl⟩
      · exact ⟨_, rfl, rfl⟩
      · exact ⟨_, rfl, rfl⟩
      · exact ⟨_, rfl, rfl⟩
      · exact ⟨_, rfl, rfl⟩
  · intro s rest hm h9 hb
    subst hm
    simp only [interpretReceivedMessage, land_f0_eq_note_on, land_f0_eq_control_change]
    simp only [List.getElem?_cons_zero, Option.bind_eq_bind, Option.some_bind, Option.pure_def]
    rw [if_neg h9, if_neg hb]

/-- Witness of C5 amended: a 4-byte sequence, and a 2-byte program change. -/
theorem C5_interpret_defined_witness :
    (∃ u, interpretReceivedMessage [0xb0, 1, 127, 0] = some u ∧
      interpretReceivedMessage ([0xb0, 1, 127, 0].take 3) = some u) ∧
    interpretReceivedMessage [0xc0, 5] = some noUpdate :=
  ⟨(C5_interpret_defined [0xb0, 1, 127, 0]).1 (by decide),
   (C5_interpret_defined [0xc0, 5]).2 0xc0 [5] rfl (by decide) (by decide)⟩

/-! ### The slot map -/

/-- Storing at position `j` does not change the first `j` entries. -/
theorem take_set_same {α : Type} (a : α) : ∀ (j : Nat) (l : List α),
    (l.set j a).take j = l.take j
  | 0, _ => by simp
  | _ + 1, [] => by simp
  | j + 1, x :: l => by simp [take_set_same a j l]

/-- What the slot-mapping loop leaves behind, for every map and every start `j` within it:
the first `j` entries as they were, then the present subsystems among the remaining values of
`i` as far as there is room, then the old entries of the slots that were not reached. -/
theorem updateSystemMapLoop_eq (hasSystem : Nat → Bool) (is : List Nat) :
    ∀ (j : Nat) (systemMap : List ESystem), j ≤ systemMap.length →
      updateSystemMapLoop hasSystem is j systemMap =
        systemMap.take j ++
          ((is.filter hasSystem).take (systemMap.length - j)).map ESystem.sys ++
          systemMap.drop (j + min (systemMap.length - j) (is.filter hasSystem).length) := by
  induction is with
  | nil =>
    intro j m _
    simp [updateSystemMapLoop]
  | cons i rest ih =>
    intro j m hj
    unfold updateSystemMapLoop
    by_cases hfull : j = m.length
    · subst hfull
      simp
    · have hlt : j < m.length := lt_of_le_of_ne hj hfull
      rw [if_neg hfull]
      by_cases hi : hasSystem i = true
      · rw [if_pos hi, ih (j + 1) (m.set j (ESystem.sys i)) (by simpa using hlt)]
        have e1 : (m.set j (ESystem.sys i)).take (j + 1) = m.take j ++ [ESystem.sys i] := by
          rw [List.take_succ, take_set_same, List.getElem?_set_self hlt]
          rfl
        have e2 : ∀ k, j < k → (m.set j (ESystem.sys i)).drop k = m.drop k :=
          fun k hk => List.drop_set_of_lt _ _ hk
        have e3 : m.length - j = (m.length - (j + 1)) + 1 := by omega
        rw [e1, e2 _ (by omega), List.length_set, List.filter_cons_of_pos hi, e3,
          List.take_succ_cons, List.map_cons, List.length_cons, Nat.succ_min_succ]
        simp only [List.append_assoc, List.singleton_append]
        rw [show j + ((m.length - (j + 1)) ⊓ (List.filter hasSystem rest).length + 1) =
          j + 1 + (m.length - (j + 1)) ⊓ (List.filter hasSystem rest).length by omega]
      · rw [if_neg hi, ih j m hj]
        simp [List.filter_cons, hi]

/-- C6: from the initial slot map (eight times `SYS_None`), for every number `SYS_COUNT` of
subsystem kinds and every presence test, the slot-mapping step of `update` leaves the first
`min(8, n)` present subsystems, in ascending enumeration order, in slots `0 .. min(8,n)-1`, and
`SYS_None` in every remaining slot (`n` is the number of present subsystems). -/
theorem C6_slot_map_from_initial (SYS_COUNT : Nat) (hasSystem : Nat → Bool) :
    updateSystemMap SYS_COUNT hasSystem initialSystemMap =
      ((presentSystems SYS_COUNT hasSystem).take 8).map ESystem.sys ++
        List.replicate (8 - min 8 (presentSystems SYS_COUNT hasSystem).length)
          ESystem.SYS_None := by
  unfold updateSystemMap
  rw [updateSystemMapLoop_eq hasSystem (List.range SYS_COUNT) 0 initialSystemMap (Nat.zero_le _)]
  simp only [initialSystemMap, presentSystems, List.take_zero, List.nil_append,
    List.length_replicate, Nat.sub_zero, Nat.zero_add, List.drop_replicate]

/-- C7, the code at a failing input: a tick with subsystems 0 and 1 present followed by a tick
with only subsystem 0 present leaves subsystem 1 in slot 1, whereas the same presence test
applied to the initial map gives `SYS_None` there: the map after a tick depends on the map
before it, and an entry that is no longer present stays. -/
theorem C7_stale_entry_after_update :
    updateSystemMap 9 (fun i => decide (i < 1))
        (updateSystemMap 9 (fun i => decide (i < 2)) initialSystemMap) =
      [ESystem.sys 0, ESystem.sys 1, ESystem.SYS_None, ESystem.SYS_None, ESystem.SYS_None,
        ESystem.SYS_None, ESystem.SYS_None, ESystem.SYS_None] ∧
    updateSystemMap 9 (fun i => decide (i < 1)) initialSystemMap =
      [ESystem.sys 0, ESystem.SYS_None, ESystem.SYS_None, ESystem.SYS_None, ESystem.SYS_None,
        ESystem.SYS_None, ESystem.SYS_None, ESystem.SYS_None] := by
  constructor <;> decide

/-! ### The input phase -/

/-- The value an update contributes to the pair `(kind, slot)`. -/
theorem lastValue_cons (kind : InputUpdateType) (slot : Nat) (message : List UChar)
    (rest : List (List UChar)) (u : MidiInputUpdate)
    (h : interpretReceivedMessage message = some u) :
    lastValue kind slot (message :: rest) =
      match lastValue kind slot rest with
      | some v => some v
      | none => if u.type = kind ∧ u.index = slot then some u.value else none := by
  unfold lastValue decodedUpdates
  rw [List.filterMap_cons_some h, List.filter_cons]
  by_cases hu : u.type = kind ∧ u.index = slot
  · rw [if_pos (by simpa using hu), if_pos hu, List.getLast?_cons]
    generalize List.getLast? (List.filter (fun u => decide (u.type = kind ∧ u.index = slot))
      (List.filterMap interpretReceivedMessage rest)) = o
    cases o <;> rfl
  · rw [if_neg (by simpa using hu), if_neg hu]
    generalize List.getLast? (List.filter (fun u => decide (u.type = kind ∧ u.index = slot))
      (List.filterMap interpretReceivedMessage rest)) = o
    cases o <;> rfl

/-- No queue message gives a pending value for the empty queue. -/
theorem lastValue_nil (kind : InputUpdateType) (slot : Nat) : lastValue kind slot [] = none :=
  rfl

/-- The drain loop on a queue of decodable messages: it empties the queue, and an entry of an
array ends as the value of the last message decoding to its kind and slot, or as it was when
there is no such message. -/
theorem drainLoop_eq : ∀ (queue : List (List UChar)) (pw cl : List (Option ℚ)),
    (∀ m ∈ queue, (interpretReceivedMessage m).isSome = true) → 8 ≤ pw.length → 8 ≤ cl.length →
    ∃ p2 c2, drainLoop queue pw cl = some (p2, c2, []) ∧
      (∀ i, p2[i]? = match lastValue InputUpdateType.POWER i queue with
        | some v => some (some v)
        | none => (pw[i]?)) ∧
      (∀ i, c2[i]? = match lastValue InputUpdateType.COOLANT i queue with
        | some v => some (some v)
        | none => (cl[i]?)) := by
  intro queue
  induction queue with
  | nil =>
    intro pw cl _ _ _
    exact ⟨pw, cl, rfl, fun i => by rw [lastValue_nil], fun i => by rw [lastValue_nil]⟩
  | cons m rest ih =>
    intro pw cl hq hp hc
    have hm := hq m (List.mem_cons_self m rest)
    obtain ⟨u, hu⟩ := Option.isSome_iff_exists.mp hm
    have hne : m ≠ [] := by
      intro h0
      rw [h0] at hu
      exact Option.noConfusion hu
    have hidx : u.index < 8 := interpret_index_lt m u hu
    have hrest : ∀ m2 ∈ rest, (interpretReceivedMessage m2).isSome = true :=
      fun m2 h2 => hq m2 (List.mem_cons_of_mem m h2)
    unfold drainLoop
    rw [if_neg hne, hu]
    simp only [Option.bind_eq_bind, Option.some_bind]
    by_cases hP : u.type = InputUpdateType.POWER
    · rw [if_pos hP]
      have hs : storeAt pw u.index (some u.value) = some (pw.set u.index (some u.value)) := by
        unfold storeAt
        rw [if_pos (by omega)]
      rw [hs]
      simp only [Option.some_bind]
      obtain ⟨p2, c2, hd, hp2, hc2⟩ := ih (pw.set u.index (some u.value)) cl hrest
        (by rw [List.length_set]; exact hp) hc
      refine ⟨p2, c2, hd, ?_, ?_⟩
      · intro i
        rw [hp2 i, lastValue_cons _ _ _ _ _ hu]
        cases lastValue InputUpdateType.POWER i rest with
        | some v => rfl
        | none =>
          simp only []
          by_cases hi : u.index = i
          · subst hi
            rw [if_pos ⟨hP, rfl⟩, List.getElem?_set_self (by omega)]
          · rw [if_neg (fun h => hi h.2), List.getElem?_set_ne hi]
      · intro i
        rw [hc2 i, lastValue_cons _ _ _ _ _ hu]
        cases lastValue InputUpdateType.COOLANT i rest with
        | some v => rfl
        | none =>
          simp only []
          rw [if_neg (fun h => by rw [hP] at h; exact InputUpdateType.noConfusion h.1)]
    · rw [if_neg hP]
      by_cases hC : u.type = InputUpdateType.COOLANT
      · rw [if_pos hC]
        have hs : storeAt cl u.index (some u.value) = some (cl.set u.index (some u.value)) := by
          unfold storeAt
          rw [if_pos (by omega)]
        rw [hs]
        simp only [Option.some_bind]
        obtain ⟨p2, c2, hd, hp2, hc2⟩ := ih pw (cl.set u.index (some u.value)) hrest hp
          (by rw [List.length_set]; exact hc)
        refine ⟨p2, c2, hd, ?_, ?_⟩
        · intro i
          rw [hp2 i, lastValue_cons _ _ _ _ _ hu]
          cases lastValue InputUpdateType.POWER i rest with
          | some v => rfl
          | none =>
            simp only []
            rw [if_neg (fun h => hP h.1)]
        · intro i
          rw [hc2 i, lastValue_cons _ _ _ _ _ hu]
          cases lastValue InputUpdateType.COOLANT i rest with
          | some v => rfl
          | none =>
            simp only []
            by_cases hi : u.index = i
            · subst hi
              rw [if_pos ⟨hC, rfl⟩, List.getElem?_set_self (by omega)]
            · rw [if_neg (fun h => hi h.2), List.getElem?_set_ne hi]
      · rw [if_neg hC]
        obtain ⟨p2, c2, hd, hp2, hc2⟩ := ih pw cl hrest hp hc
        refine ⟨p2, c2, hd, ?_, ?_⟩
        · intro i
          rw [hp2 i, lastValue_cons _ _ _ _ _ hu]
          cases lastValue InputUpdateType.POWER i rest with
          | some v => rfl
          | none =>
            simp only []
            rw [if_neg (fun h => hP h.1)]
        · intro i
          rw [hc2 i, lastValue_cons _ _ _ _ _ hu]
          cases lastValue InputUpdateType.COOLANT i rest with
          | some v => rfl
          | none =>
            simp only []
            rw [if_neg (fun h => hC h.1)]

/-- The issuing loop over slots that exist in the map and in both arrays: the commands of
each slot, in order. -/
theorem issueLoop_eq (systemMap : List ESystem) (pw cl : List (Option ℚ)) :
    ∀ (is : List Nat), (∀ i ∈ is, i < systemMap.length ∧ i < pw.length ∧ i < cl.length) →
      issueLoop systemMap pw cl is =
        some (is.flatMap (fun i =>
          slotCommands (systemMap.getD i ESystem.SYS_None) (pw.getD i none) (cl.getD i none)))
  | [], _ => rfl
  | i :: rest, h => by
    obtain ⟨h1, h2, h3⟩ := h i (List.mem_cons_self i rest)
    have ih := issueLoop_eq systemMap pw cl rest (fun k hk => h k (List.mem_cons_of_mem i hk))
    unfold issueLoop
    rw [ih]
    simp only [List.getElem?_eq_getElem h1, List.getElem?_eq_getElem h2,
      List.getElem?_eq_getElem h3, Option.bind_eq_bind, Option.some_bind, Option.pure_def,
      List.flatMap_cons, List.getD_eq_getElem?_getD, Option.getD_some, slotCommands]
    cases pw[i] <;> cases cl[i] <;> rfl

/-- The input phase computes the commands the specification words, and empties the queue,
whenever every queued message is decodable, the map has 8 slots and the arrays have room for
them. -/
theorem checkMidiIn_eq_expectedCommands (SYS_COUNT : Nat) (systemMap : List ESystem)
    (queue : List (List UChar)) (hcount : 8 ≤ SYS_COUNT) (hlen : systemMap.length = 8)
    (hqueue : ∀ m ∈ queue, (interpretReceivedMessage m).isSome = true) :
    checkMidiIn SYS_COUNT systemMap queue = some (expectedCommands systemMap queue, []) := by
  have hinit : initRequests SYS_COUNT systemMap.length = some (List.replicate SYS_COUNT none) := by
    unfold initRequests
    rw [if_pos (by omega)]
  obtain ⟨p2, c2, hd, hp2, hc2⟩ := drainLoop_eq queue (List.replicate SYS_COUNT none)
    (List.replicate SYS_COUNT none) hqueue (by simpa using hcount) (by simpa using hcount)
  have hpi : ∀ i, i < 8 → p2[i]? = some (lastValue InputUpdateType.POWER i queue) := by
    intro i hi
    rw [hp2 i]
    cases lastValue InputUpdateType.POWER i queue with
    | some v => rfl
    | none => simp only []; rw [List.getElem?_replicate, if_pos (by omega)]
  have hci : ∀ i, i < 8 → c2[i]? = some (lastValue InputUpdateType.COOLANT i queue) := by
    intro i hi
    rw [hc2 i]
    cases lastValue InputUpdateType.COOLANT i queue with
    | some v => rfl
    | none => simp only []; rw [List.getElem?_replicate, if_pos (by omega)]
  have hplen : ∀ i, i < 8 → i < p2.length := by
    intro i hi
    by_contra hcon
    have := hpi i hi
    rw [List.getElem?_eq_none (by omega)] at this
    exact Option.noConfusion this
  have hclen : ∀ i, i < 8 → i < c2.length := by
    intro i hi
    by_contra hcon
    have := hci i hi
    rw [List.getElem?_eq_none (by omega)] at this
    exact Option.noConfusion this
  unfold checkMidiIn
  rw [hinit]
  simp only [Option.bind_eq_bind, Option.some_bind, hd, Option.pure_def]
  rw [issueLoop_eq systemMap p2 c2 (List.range systemMap.length) (by
    intro i hi
    rw [List.mem_range, hlen] at hi
    exact ⟨by omega, hplen i hi, hclen i hi⟩)]
  simp only [Option.some_bind, expectedCommands]
  congr 2
  apply List.flatMap_congr
  intro i hi
  rw [List.mem_range, hlen] at hi
  rw [List.getD_eq_getElem?_getD p2, List.getD_eq_getElem?_getD c2, hpi i hi, hci i hi]
  rfl

/-- A concatenation over distinct indices of which only `s` contributes is the contribution
of `s`. -/
theorem flatMap_single {β : Type} (g : Nat → List β) (s : Nat) :
    ∀ (l : List Nat), l.Nodup → s ∈ l → (∀ i ∈ l, i ≠ s → g i = []) → l.flatMap g = g s
  | [], _, hs, _ => absurd hs (List.not_mem_nil s)
  | a :: l, hnd, hs, hg => by
    rw [List.nodup_cons] at hnd
    rw [List.flatMap_cons]
    by_cases ha : a = s
    · subst ha
      have hnil : l.flatMap g = [] := by
        rw [List.flatMap_eq_nil_iff]
        intro i hi
        exact hg i (List.mem_cons_of_mem a hi) (fun h => hnd.1 (h ▸ hi))
      rw [hnil, List.append_nil]
    · have hsl : s ∈ l := by
        rcases List.mem_cons.mp hs with h | h
        · exact absurd h.symm ha
        · exact h
      rw [hg a (List.mem_cons_self a l) ha, List.nil_append]
      exact flatMap_single g s l hnd.2 hsl (fun i hi => hg i (List.mem_cons_of_mem a hi))

/-- Latest value wins for a slot whose subsystem is in no other slot.  For every queue of
decodable messages drained in one tick, every kind in {POWER, COOLANT} and every slot of an
8-slot map whose subsystem is held by no other slot, if some queued message decodes to the pair
(kind, slot), then among the commands issued exactly one is of that kind for the subsystem of
that slot, and it carries the value `v` of the last queued message decoding to the pair.  The
hypothesis on the map is needed: see the map `[sys 1, sys 1, ...]` below. -/
theorem latest_value_wins_of_unique_slot (SYS_COUNT : Nat) (systemMap : List ESystem)
    (queue : List (List UChar)) (kind : InputUpdateType) (slot : Nat) (system : ESystem) (v : ℚ)
    (hcount : 8 ≤ SYS_COUNT) (hlen : systemMap.length = 8)
    (hqueue : ∀ m ∈ queue, (interpretReceivedMessage m).isSome = true)
    (hkind : kind = InputUpdateType.POWER ∨ kind = InputUpdateType.COOLANT)
    (hslot : systemMap[slot]? = some system)
    (honly : ∀ i, i < 8 → i ≠ slot → systemMap[i]? ≠ some system)
    (hlast : lastValue kind slot queue = some v) :
    ∃ commands command,
      checkMidiIn SYS_COUNT systemMap queue = some (commands, []) ∧
      commands.filter (fun x => decide (x.kind = kind ∧ x.system = system)) = [command] ∧
      command.kind = kind ∧ command.system = system ∧ command.level = v := by
  have hs8 : slot < 8 := by
    by_contra hcon
    rw [List.getElem?_eq_none (by omega)] at hslot
    exact Option.noConfusion hslot
  have hget : systemMap.getD slot ESystem.SYS_None = system := by
    rw [List.getD_eq_getElem?_getD, hslot]
    rfl
  have hother : ∀ i ∈ List.range systemMap.length, i ≠ slot →
      List.filter (fun x => decide (x.kind = kind ∧ x.system = system))
        (slotCommands (systemMap.getD i ESystem.SYS_None)
          (lastValue InputUpdateType.POWER i queue)
          (lastValue InputUpdateType.COOLANT i queue)) = [] := by
    intro i hi hne
    rw [List.mem_range] at hi
    have hsys : systemMap.getD i ESystem.SYS_None ≠ system := by
      intro h
      apply honly i (hlen ▸ hi) hne
      rw [List.getElem?_eq_getElem hi, ← h, List.getD_eq_getElem?_getD,
        List.getElem?_eq_getElem hi]
      rfl
    rw [List.filter_eq_nil_iff]
    intro x hx
    have hxs : x.system = systemMap.getD i ESystem.SYS_None := by
      unfold slotCommands at hx
      rcases List.mem_append.mp hx with h | h
      · cases hpv : lastValue InputUpdateType.POWER i queue with
        | none => rw [hpv] at h; exact absurd h (List.not_mem_nil x)
        | some w =>
          rw [hpv] at h
          rw [List.mem_singleton.mp h]
          rfl
      · cases hcv : lastValue InputUpdateType.COOLANT i queue with
        | none => rw [hcv] at h; exact absurd h (List.not_mem_nil x)
        | some w =>
          rw [hcv] at h
          rw [List.mem_singleton.mp h]
          rfl
    simp only [decide_eq_true_eq, not_and]
    intro _ h
    exact hsys (hxs ▸ h)
  have hall : (expectedCommands systemMap queue).filter
      (fun x => decide (x.kind = kind ∧ x.system = system)) =
      List.filter (fun x => decide (x.kind = kind ∧ x.system = system))
        (slotCommands system (lastValue InputUpdateType.POWER slot queue)
          (lastValue InputUpdateType.COOLANT slot queue)) := by
    unfold expectedCommands
    rw [List.filter_flatMap, flatMap_single _ slot (List.range systemMap.length)
      (List.nodup_range _) (by rw [List.mem_range, hlen]; exact hs8) hother, hget]
  refine ⟨expectedCommands systemMap queue, ?_⟩
  rcases hkind with hk | hk
  · subst hk
    refine ⟨Command.setSystemPowerRequest system v,
      checkMidiIn_eq_expectedCommands SYS_COUNT systemMap queue hcount hlen hqueue,
      ?_, rfl, rfl, rfl⟩
    rw [hall, hlast]
    cases lastValue InputUpdateType.COOLANT slot queue <;>
      simp [slotCommands, Command.kind, Command.system]
  · subst hk
    refine ⟨Command.setSystemCoolantRequest system v,
      checkMidiIn_eq_expectedCommands SYS_COUNT systemMap queue hcount hlen hqueue,
      ?_, rfl, rfl, rfl⟩
    rw [hall, hlast]
    cases lastValue InputUpdateType.POWER slot queue <;>
      simp [slotCommands, Command.kind, Command.system]

/-- An instance of the lemma: slot 0 of the map `[sys 0, sys 1, SYS_None, ...]` receives a
button press (preset 0.30), an encoder message for slot 1, and then a button press of the top
row (preset 1.5); the one power command for subsystem 0 carries 1.5. -/
theorem latest_value_wins_of_unique_slot_example :
    ∃ commands command,
      checkMidiIn 9
        [ESystem.sys 0, ESystem.sys 1, ESystem.SYS_None, ESystem.SYS_None, ESystem.SYS_None,
          ESystem.SYS_None, ESystem.SYS_None, ESystem.SYS_None]
        [[0x91, 32, 127], [0xb0, 11, 127], [0x91, 16, 127]] = some (commands, []) ∧
      commands.filter
        (fun x => decide (x.kind = InputUpdateType.POWER ∧ x.system = ESystem.sys 0)) =
          [command] ∧
      command.kind = InputUpdateType.POWER ∧ command.system = ESystem.sys 0 ∧
        command.level = 3 / 2 :=
  latest_value_wins_of_unique_slot 9
    [ESystem.sys 0, ESystem.sys 1, ESystem.SYS_None, ESystem.SYS_None, ESystem.SYS_None,
      ESystem.SYS_None, ESystem.SYS_None, ESystem.SYS_None]
    [[0x91, 32, 127], [0xb0, 11, 127], [0x91, 16, 127]]
    InputUpdateType.POWER 0 (ESystem.sys 0) (3 / 2)
    (by decide) rfl (by decide) (Or.inl rfl) rfl (by decide) rfl

/-- C8, the code at a failing input: a tick with subsystems 0 and 1 present followed by a tick
with only subsystem 1 present leaves the slot map `[sys 1, sys 1, SYS_None, ...]` (the entry of
slot 1 is not reset); with a fader message for slot 0 (value 3) and then one for slot 1
(value 0) queued, the input phase issues two set-power commands for subsystem 1, the second
carrying 0, although the last message decoding to the pair (POWER, slot 0) carries 3. -/
theorem C8_two_commands_for_one_subsystem :
    updateSystemMap 9 (fun i => decide (i = 1))
        (updateSystemMap 9 (fun i => decide (i < 2)) initialSystemMap) =
      [ESystem.sys 1, ESystem.sys 1, ESystem.SYS_None, ESystem.SYS_None, ESystem.SYS_None,
        ESystem.SYS_None, ESystem.SYS_None, ESystem.SYS_None] ∧
    checkMidiIn 9
        (updateSystemMap 9 (fun i => decide (i = 1))
          (updateSystemMap 9 (fun i => decide (i < 2)) initialSystemMap))
        [[0xb0, 1, 127], [0xb0, 2, 0]] =
      some ([Command.setSystemPowerRequest (ESystem.sys 1) 3,
        Command.setSystemPowerRequest (ESystem.sys 1) 0], []) ∧
    lastValue InputUpdateType.POWER 0 [[0xb0, 1, 127], [0xb0, 2, 0]] = some 3 := by
  decide!

/-- C9, the code at a failing input: with every slot unassigned and one fader message for
slot 0 in the queue, the input phase issues a set-power command addressed to `SYS_None`. -/
theorem C9_command_for_unassigned_slot :
    checkMidiIn 9 initialSystemMap [[0xb0, 1, 127]] =
      some ([Command.setSystemPowerRequest ESystem.SYS_None 3], []) := by
  decide!

/-- C10, the code at a failing input: with every slot unassigned, `sendMidiOut` sends 48
messages, six for each of the 8 slots, and the telemetry looked up for `SYS_None` determines
their values (power request 3 gives the fader byte 127, power request 0 the byte 0). -/
theorem C10_messages_for_unassigned_slots :
    (sendMidiOut (fun _ => ⟨0, 0, 0, 1⟩) initialSystemMap).map List.length = some 48 ∧
    (sendMidiOut (fun _ => ⟨0, 0, 0, 1⟩) initialSystemMap).map (List.take 1) =
      some [[0xb0, 1, 0]] ∧
    (sendMidiOut (fun _ => ⟨3, 0, 0, 1⟩) initialSystemMap).map (List.take 1) =
      some [[0xb0, 1, 127]] := by
  decide!

/-! ### The output phase -/

/-- On a non-negative argument `round` of `<cmath>` is the nearest integer `round`. -/
theorem cRound_of_nonneg (x : ℚ) (h : 0 ≤ x) : cRound x = round x := by
  unfold cRound
  rw [if_pos h, round_eq]

/-- The nearest integer of a value in `[0, 127]` is in `[0, 127]`. -/
theorem round_mem_byte_range (x : ℚ) (h0 : 0 ≤ x) (h1 : x ≤ 127) :
    0 ≤ round x ∧ round x ≤ 127 := by
  rw [round_eq]
  constructor
  · rw [Int.floor_nonneg]
    linarith
  · rw [Int.floor_le_iff]
    push_cast
    linarith

/-- A value of `toUChar` below 256 is the number itself. -/
theorem toUChar_val (n : Nat) (h : n < 256) : (toUChar n).val = n :=
  Nat.mod_eq_of_lt h

/-- The conversion to `unsigned char` of the rounding of a value in `[0, 127]`. -/
theorem doubleToUChar_cRound (x : ℚ) (h0 : 0 ≤ x) (h1 : x ≤ 127) :
    doubleToUChar (cRound x) = some (toUChar (round x).toNat) := by
  obtain ⟨ha, hb⟩ := round_mem_byte_range x h0 h1
  unfold doubleToUChar
  rw [cRound_of_nonneg x h0, if_pos ⟨ha, by omega⟩]

/-- The LED message of row `j` carries the value the specification words. -/
theorem ledMessage_eq (system : ShipSystem) (i j : Nat) (hj : j < 3) :
    ledMessage system i j =
      some [0x91, toUChar ((2 - j) * 8 + i), toUChar (ledValue system.heat_level j)] := by
  unfold ledMessage ledValue heatThresholds
  interval_cases j
  all_goals
    simp only [List.getElem?_cons_zero, List.getElem?_cons_succ, Option.bind_eq_bind,
      Option.some_bind, Option.pure_def, List.getD_cons_zero, List.getD_cons_succ,
      decide_eq_true_eq]
    by_cases h1 : system.heat_level < 9 / 10
    · rw [if_neg (not_le.mpr h1)]
      split_ifs <;> first | rfl | (exfalso; linarith)
    · rw [if_pos (not_lt.mp h1), if_neg h1]
      split_ifs <;> first | rfl | (exfalso; linarith)

/-- The inner loop sends the three LED messages of the rows 0, 1, 2. -/
theorem ledLoop_eq (system : ShipSystem) (i : Nat) :
    ledLoop system i (List.range 3) =
      some [[0x91, toUChar ((2 - 0) * 8 + i), toUChar (ledValue system.heat_level 0)],
        [0x91, toUChar ((2 - 1) * 8 + i), toUChar (ledValue system.heat_level 1)],
        [0x91, toUChar ((2 - 2) * 8 + i), toUChar (ledValue system.heat_level 2)]] := by
  have hr : List.range 3 = [0, 1, 2] := rfl
  rw [hr]
  simp only [ledLoop, ledMessage_eq system i 0 (by decide), ledMessage_eq system i 1 (by decide),
    ledMessage_eq system i 2 (by decide), Option.bind_eq_bind, Option.some_bind,
    Option.pure_def]

/-- For telemetry in range, one iteration of the outer loop sends the six messages of the
specification, each byte converted to `unsigned char`. -/
theorem slotMessages_eq (system : ShipSystem) (i : Nat) (h : system.inRange) :
    slotMessages system i = some ((expectedSlotMessages system i).map (List.map toUChar)) := by
  obtain ⟨hp0, hp3, hc0, hc10, hh0, hh1⟩ := h
  have hf := doubleToUChar_cRound (system.power_request / 3 * 127) (by linarith) (by linarith)
  have he := doubleToUChar_cRound (system.coolant_request / 10 * 127) (by linarith)
    (by linarith)
  have hd0 : (0 : ℚ) ≤ (1 - system.health) * 127 := by linarith
  have hd1 : (1 - system.health) * 127 ≤ 127 := by linarith
  obtain ⟨ha, hb⟩ := round_mem_byte_range _ hd0 hd1
  have hd : doubleToInt (cRound ((1 - system.health) * 127)) =
      some (round ((1 - system.health) * 127)) := by
    unfold doubleToInt
    rw [cRound_of_nonneg _ hd0, if_pos ⟨by omega, by omega⟩]
  have hu : intToUChar (max 0 (round ((1 - system.health) * 127))) =
      toUChar (max 0 (round ((1 - system.health) * 127))).toNat := by
    unfold intToUChar
    rw [Int.emod_eq_of_lt (le_max_left _ _) (by rw [max_eq_right ha]; omega)]
  unfold slotMessages
  rw [hf, he, hd, ledLoop_eq]
  simp only [Option.bind_eq_bind, Option.some_bind, Option.pure_def, hu]
  rfl

/-- The six messages of the specification are bytes when the slot is one of the 8 and the
telemetry is in range: control and note numbers at most 25, values at most 127, LED values
among 0, 2, 3. -/
theorem expectedSlotMessages_bounds (system : ShipSystem) (s : Nat) (hs : s < 8)
    (h : system.inRange) :
    ∀ m ∈ expectedSlotMessages system s, ∃ status data1 data2,
      m = [status, data1, data2] ∧ (status = 0xb0 ∨ status = 0x91) ∧ data1 ≤ 25 ∧
        data2 ≤ 127 ∧ (status = 0x91 → data2 = 0 ∨ data2 = 2 ∨ data2 = 3) := by
  obtain ⟨hp0, hp3, hc0, hc10, hh0, hh1⟩ := h
  have hf := round_mem_byte_range (system.power_request / 3 * 127) (by linarith) (by linarith)
  have he := round_mem_byte_range (system.coolant_request / 10 * 127) (by linarith)
    (by linarith)
  have hd := round_mem_byte_range ((1 - system.health) * 127) (by linarith) (by linarith)
  have hv : ∀ j, ledValue system.heat_level j = 0 ∨ ledValue system.heat_level j = 2 ∨
      ledValue system.heat_level j = 3 := by
    intro j
    unfold ledValue
    split_ifs
    · exact Or.inl rfl
    · exact Or.inr (Or.inl rfl)
    · exact Or.inr (Or.inr rfl)
  have hl : ∀ j, ledValue system.heat_level j ≤ 127 := by
    intro j
    rcases hv j with h | h | h <;> rw [h] <;> decide
  have hno : ∀ n : Nat, (0xb0 : Nat) = 0x91 → n = 0 ∨ n = 2 ∨ n = 3 :=
    fun _ h => absurd h (by decide)
  intro m hm
  unfold expectedSlotMessages at hm
  simp only [List.mem_cons, List.mem_singleton, List.not_mem_nil, or_false] at hm
  rcases hm with rfl | rfl | rfl | rfl | rfl | rfl
  · exact ⟨_, _, _, rfl, Or.inl rfl, by omega, by omega, hno _⟩
  · exact ⟨_, _, _, rfl, Or.inl rfl, by omega, by omega, hno _⟩
  · exact ⟨_, _, _, rfl, Or.inr rfl, by omega, hl 0, fun _ => hv 0⟩
  · exact ⟨_, _, _, rfl, Or.inr rfl, by omega, hl 1, fun _ => hv 1⟩
  · exact ⟨_, _, _, rfl, Or.inr rfl, by omega, hl 2, fun _ => hv 2⟩
  · exact ⟨_, _, _, rfl, Or.inl rfl, by omega, by
      rw [max_eq_right hd.1]; omega, hno _⟩

/-- Converting the six messages of the specification to `unsigned char` and back gives them
unchanged, for a slot among the 8 and telemetry in range. -/
theorem byteValues_expectedSlotMessages (system : ShipSystem) (s : Nat) (hs : s < 8)
    (h : system.inRange) :
    byteValues ((expectedSlotMessages system s).map (List.map toUChar)) =
      expectedSlotMessages system s := by
  unfold byteValues
  rw [List.map_map]
  conv_rhs => rw [← List.map_id (expectedSlotMessages system s)]
  apply List.map_congr_left
  intro m hm
  obtain ⟨st, d1, d2, rfl, hst, h1, h2, _⟩ := expectedSlotMessages_bounds system s hs h m hm
  have hst2 : st < 256 := by rcases hst with rfl | rfl <;> decide
  simp only [Function.comp, List.map_cons, List.map_nil, id]
  rw [toUChar_val st hst2, toUChar_val d1 (by omega), toUChar_val d2 (by omega)]

/-- The outer loop over slots whose telemetry is in range: the six messages of each slot, in
order. -/
theorem sendLoop_eq (systems : ESystem → ShipSystem) (systemMap : List ESystem) :
    ∀ (is : List Nat),
      (∀ i ∈ is, i < systemMap.length ∧
        (systems (systemMap.getD i ESystem.SYS_None)).inRange) →
      sendLoop systems systemMap is =
        some (is.flatMap (fun i =>
          (expectedSlotMessages (systems (systemMap.getD i ESystem.SYS_None)) i).map
            (List.map toUChar)))
  | [], _ => rfl
  | i :: rest, h => by
    obtain ⟨h1, h2⟩ := h i (List.mem_cons_self i rest)
    have ih := sendLoop_eq systems systemMap rest
      (fun k hk => h k (List.mem_cons_of_mem i hk))
    have hg : systemMap.getD i ESystem.SYS_None = systemMap[i] := by
      rw [List.getD_eq_getElem?_getD, List.getElem?_eq_getElem h1]
      rfl
    rw [hg] at h2
    unfold sendLoop
    rw [ih, List.getElem?_eq_getElem h1]
    simp only [Option.bind_eq_bind, Option.some_bind, Option.pure_def,
      slotMessages_eq _ i h2, List.flatMap_cons, hg]

/-- The length of a concatenation of blocks of six. -/
theorem length_flatMap_six {β : Type} (f : Nat → List β) (hf : ∀ i, (f i).length = 6) :
    ∀ n, ((List.range n).flatMap f).length = 6 * n
  | 0 => rfl
  | n + 1 => by
    rw [List.range_succ, List.flatMap_append, List.length_append, length_flatMap_six f hf n]
    simp only [List.flatMap_cons, List.flatMap_nil, List.append_nil, hf]
    omega

/-- The block of slot `s` in a concatenation of blocks of six. -/
theorem block_of_flatMap_six {β : Type} (f : Nat → List β) (hf : ∀ i, (f i).length = 6)
    (s : Nat) : ∀ n, s < n → (((List.range n).flatMap f).drop (6 * s)).take 6 = f s
  | 0, h => absurd h (Nat.not_lt_zero s)
  | n + 1, h => by
    have hl := length_flatMap_six f hf n
    rw [List.range_succ, List.flatMap_append]
    simp only [List.flatMap_cons, List.flatMap_nil, List.append_nil]
    by_cases hs : s < n
    · rw [List.drop_append_of_le_length (by omega),
        List.take_append_of_le_length (by rw [List.length_drop]; omega)]
      exact block_of_flatMap_six f hf s n hs
    · have hsn : s = n := by omega
      subst hsn
      rw [List.drop_left' hl, List.take_of_length_le (by rw [hf])]

/-- The emission when the telemetry is in range at the lookup of all 8 slots, whatever their
entries (power request in `[0,3]`, coolant request in `[0,10]`, health in `[0,1]`, any heat):
`sendMidiOut` sends, for slot `s`, the six messages `[0xB0, s+1, round(p/3*127)]`, `[0xB0, 10+s, round(c/10*127)]`,
`[0x91, (2-j)*8+s, ledValue_j]` for `j = 0, 1, 2`, and `[0xB0, 18+s, max(0, round((1-health)*127))]`,
in this order; the slots come in ascending order, so that the emission is the concatenation of
the blocks of the slots 0 to 7 and the block of slot `s` is at positions `6s .. 6s+5`. -/
theorem sendMidiOut_eq_blocks (systems : ESystem → ShipSystem) (systemMap : List ESystem)
    (hlen : systemMap.length = 8)
    (hrange : ∀ s, s < 8 → (systems (systemMap.getD s ESystem.SYS_None)).inRange) :
    ∃ messages, sendMidiOut systems systemMap = some messages ∧
      byteValues messages = (List.range 8).flatMap (fun s =>
        expectedSlotMessages (systems (systemMap.getD s ESystem.SYS_None)) s) ∧
      ∀ s, s < 8 → byteValues ((messages.drop (6 * s)).take 6) =
        expectedSlotMessages (systems (systemMap.getD s ESystem.SYS_None)) s := by
  have hsend := sendLoop_eq systems systemMap (List.range systemMap.length) (by
    intro i hi
    rw [List.mem_range] at hi
    exact ⟨hi, hrange i (hlen ▸ hi)⟩)
  rw [hlen] at hsend
  have hbytes : byteValues ((List.range 8).flatMap (fun i =>
      (expectedSlotMessages (systems (systemMap.getD i ESystem.SYS_None)) i).map
        (List.map toUChar))) =
      (List.range 8).flatMap (fun s =>
        expectedSlotMessages (systems (systemMap.getD s ESystem.SYS_None)) s) := by
    unfold byteValues
    rw [List.map_flatMap]
    apply List.flatMap_congr
    intro i hi
    rw [List.mem_range] at hi
    exact byteValues_expectedSlotMessages _ i hi (hrange i hi)
  refine ⟨_, ?_, hbytes, ?_⟩
  · unfold sendMidiOut
    rw [hlen]
    exact hsend
  · intro s hs
    have hb : ∀ l : List (List UChar), byteValues ((l.drop (6 * s)).take 6) =
        ((byteValues l).drop (6 * s)).take 6 := by
      intro l
      unfold byteValues
      rw [List.map_take, List.map_drop]
    rw [hb, hbytes]
    exact block_of_flatMap_six
      (fun s => expectedSlotMessages (systems (systemMap.getD s ESystem.SYS_None)) s)
      (fun _ => rfl) s 8 hs

/-- An instance of the lemma: the map with subsystems 0 to 7 in its slots, every subsystem at
power 3, coolant 10, heat 0.8 and health 0.5. -/
theorem sendMidiOut_eq_blocks_example :
    ∃ messages,
      sendMidiOut (fun _ => ⟨3, 10, 4 / 5, 1 / 2⟩)
        [ESystem.sys 0, ESystem.sys 1, ESystem.sys 2, ESystem.sys 3, ESystem.sys 4,
          ESystem.sys 5, ESystem.sys 6, ESystem.sys 7] = some messages ∧
      byteValues messages = (List.range 8).flatMap (fun s =>
        expectedSlotMessages ((fun _ => (⟨3, 10, 4 / 5, 1 / 2⟩ : ShipSystem))
          ([ESystem.sys 0, ESystem.sys 1, ESystem.sys 2, ESystem.sys 3, ESystem.sys 4,
            ESystem.sys 5, ESystem.sys 6, ESystem.sys 7].getD s ESystem.SYS_None)) s) ∧
      ∀ s, s < 8 → byteValues ((messages.drop (6 * s)).take 6) =
        expectedSlotMessages ((fun _ => (⟨3, 10, 4 / 5, 1 / 2⟩ : ShipSystem))
          ([ESystem.sys 0, ESystem.sys 1, ESystem.sys 2, ESystem.sys 3, ESystem.sys 4,
            ESystem.sys 5, ESystem.sys 6, ESystem.sys 7].getD s ESystem.SYS_None)) s :=
  sendMidiOut_eq_blocks (fun _ => ⟨3, 10, 4 / 5, 1 / 2⟩)
    [ESystem.sys 0, ESystem.sys 1, ESystem.sys 2, ESystem.sys 3, ESystem.sys 4,
      ESystem.sys 5, ESystem.sys 6, ESystem.sys 7] rfl
    (fun _ _ => by unfold ShipSystem.inRange; norm_num)

/-- C11, the code at a failing input: on the map of a ship with the 7 subsystems 0 to 6, whose
slot 7 is `SYS_None`, `sendMidiOut` sends 48 messages.  The first 42 are the six-message blocks
of the assigned slots 0 to 6 as the specification lists them; the last 6 are a block for the
unassigned slot 7, with the values of the telemetry looked up at `SYS_None` (here power 3,
coolant 10, heat 1, health 0), so the emission is not the concatenation of the blocks of the
assigned slots. -/
theorem C11_block_for_unassigned_slot :
    (sendMidiOut (fun e => if e = ESystem.SYS_None then ⟨3, 10, 1, 0⟩ else ⟨0, 0, 0, 1⟩)
        [ESystem.sys 0, ESystem.sys 1, ESystem.sys 2, ESystem.sys 3, ESystem.sys 4,
          ESystem.sys 5, ESystem.sys 6, ESystem.SYS_None]).map List.length = some 48 ∧
    (sendMidiOut (fun e => if e = ESystem.SYS_None then ⟨3, 10, 1, 0⟩ else ⟨0, 0, 0, 1⟩)
        [ESystem.sys 0, ESystem.sys 1, ESystem.sys 2, ESystem.sys 3, ESystem.sys 4,
          ESystem.sys 5, ESystem.sys 6, ESystem.SYS_None]).map
        (fun messages => byteValues (messages.take 42)) =
      some ((List.range 7).flatMap (fun s => expectedSlotMessages ⟨0, 0, 0, 1⟩ s)) ∧
    (sendMidiOut (fun e => if e = ESystem.SYS_None then ⟨3, 10, 1, 0⟩ else ⟨0, 0, 0, 1⟩)
        [ESystem.sys 0, ESystem.sys 1, ESystem.sys 2, ESystem.sys 3, ESystem.sys 4,
          ESystem.sys 5, ESystem.sys 6, ESystem.SYS_None]).map
        (fun messages => byteValues (messages.drop 42)) =
      some [[0xb0, 8, 127], [0xb0, 17, 127], [0x91, 23, 3], [0x91, 15, 3], [0x91, 7, 3],
        [0xb0, 25, 127]] := by
  decide!

/-- The LED value of the specification by cases, for a row with threshold `t` at most 0.9. -/
theorem ledValue_cases (heat : ℚ) (j : Nat) (t : ℚ) (ht : [1 / 4, 1 / 2, 3 / 4][j]? = some t) :
    (heat < t → ledValue heat j = 0) ∧ (t ≤ heat → heat < 9 / 10 → ledValue heat j = 2) ∧
      (9 / 10 ≤ heat → ledValue heat j = 3) := by
  have hj : j < 3 := by
    by_contra hcon
    rw [List.getElem?_eq_none (by simpa using hcon)] at ht
    exact Option.noConfusion ht
  have hd : ([1 / 4, 1 / 2, 3 / 4] : List ℚ).getD j 0 = t := by
    rw [List.getD_eq_getElem?_getD, ht]
    rfl
  have ht9 : t ≤ 9 / 10 := by
    interval_cases j <;>
      simp only [List.getElem?_cons_zero, List.getElem?_cons_succ, Option.some.injEq] at ht <;>
      rw [← ht] <;> norm_num
  unfold ledValue
  rw [hd]
  refine ⟨fun h => if_pos h, fun h1 h2 => ?_, fun h => ?_⟩
  · rw [if_neg (not_lt.mpr h1), if_pos h2]
  · rw [if_neg (not_lt.mpr (le_trans ht9 h)), if_neg (not_lt.mpr h)]

/-- C12: for every slot `s` and heat level `h`, the LED message of row `j` (`j = 0, 1, 2`,
thresholds 0.25, 0.5, 0.75) is a note-on `0x91` with note number `(2-j)*8+s` and value 0 when
`h` is below the threshold of the row, 2 when `h` is at least the threshold and below 0.9, and
3 when `h` is at least 0.9; so the value is one of 0, 2, 3, a lit row has every lower row lit,
and from 0.9 on all three rows carry 3.  The inner loop sends these three messages in the
order of the rows. -/
theorem C12_heat_indicators (system : ShipSystem) (s : Nat) (hs : s < 8) :
    ∃ value : Nat → UChar,
      (∀ j, j < 3 → ∃ note : UChar, note.val = (2 - j) * 8 + s ∧
        ledMessage system s j = some [0x91, note, value j]) ∧
      ledLoop system s (List.range 3) =
        some [[0x91, toUChar (16 + s), value 0], [0x91, toUChar (8 + s), value 1],
          [0x91, toUChar s, value 2]] ∧
      (∀ j t, [1 / 4, 1 / 2, 3 / 4][j]? = some t →
        (system.heat_level < t → value j = 0) ∧
        (t ≤ system.heat_level → system.heat_level < 9 / 10 → value j = 2) ∧
        (9 / 10 ≤ system.heat_level → value j = 3)) ∧
      (∀ j, j < 3 → value j = 0 ∨ value j = 2 ∨ value j = 3) ∧
      (∀ j k, k < j → j < 3 → value j ≠ 0 → value k ≠ 0) ∧
      (9 / 10 ≤ system.heat_level → value 0 = 3 ∧ value 1 = 3 ∧ value 2 = 3) := by
  have hthr : ∀ j, j < 3 → ∃ t, [1 / 4, 1 / 2, 3 / 4][j]? = some t ∧ (1 : ℚ) / 4 ≤ t ∧
      ∀ k, k < j → ∃ u, [1 / 4, 1 / 2, 3 / 4][k]? = some u ∧ u ≤ t := by
    intro j hj
    interval_cases j
    · exact ⟨1 / 4, rfl, le_refl _, fun k hk => absurd hk (Nat.not_lt_zero k)⟩
    · refine ⟨1 / 2, rfl, by norm_num, fun k hk => ?_⟩
      interval_cases k
      exact ⟨1 / 4, rfl, by norm_num⟩
    · refine ⟨3 / 4, rfl, by norm_num, fun k hk => ?_⟩
      interval_cases k
      · exact ⟨1 / 4, rfl, by norm_num⟩
      · exact ⟨1 / 2, rfl, by norm_num⟩
  have hval : ∀ j, ledValue system.heat_level j = 0 ∨ ledValue system.heat_level j = 2 ∨
      ledValue system.heat_level j = 3 := by
    intro j
    unfold ledValue
    split_ifs
    · exact Or.inl rfl
    · exact Or.inr (Or.inl rfl)
    · exact Or.inr (Or.inr rfl)
  refine ⟨fun j => toUChar (ledValue system.heat_level j), ?_, ?_, ?_, ?_, ?_, ?_⟩
  · intro j hj
    exact ⟨toUChar ((2 - j) * 8 + s), toUChar_val _ (by omega), ledMessage_eq system s j hj⟩
  · rw [ledLoop_eq]
    simp only [Nat.sub_zero, Nat.sub_self, Nat.zero_mul, Nat.zero_add, Nat.reduceSub,
      Nat.reduceMul, Nat.one_mul]
  · intro j t ht
    obtain ⟨h1, h2, h3⟩ := ledValue_cases system.heat_level j t ht
    exact ⟨fun h => by simp only [h1 h]; rfl, fun ha hb => by simp only [h2 ha hb]; rfl,
      fun h => by simp only [h3 h]; rfl⟩
  · intro j _
    rcases hval j with h | h | h
    · exact Or.inl (by simp only [h]; rfl)
    · exact Or.inr (Or.inl (by simp only [h]; rfl))
    · exact Or.inr (Or.inr (by simp only [h]; rfl))
  · intro j k hk hj hne
    obtain ⟨t, ht, _, hlow⟩ := hthr j hj
    obtain ⟨u, hu, hut⟩ := hlow k hk
    obtain ⟨h1, _, _⟩ := ledValue_cases system.heat_level j t ht
    obtain ⟨g1, g2, g3⟩ := ledValue_cases system.heat_level k u hu
    have hle : t ≤ system.heat_level := by
      by_contra hcon
      apply hne
      simp only [h1 (not_le.mp hcon)]
      rfl
    by_cases h9 : system.heat_level < 9 / 10
    · simp only [g2 (le_trans hut hle) h9]
      decide
    · simp only [g3 (not_lt.mp h9)]
      decide
  · intro h9
    obtain ⟨_, _, h0⟩ := ledValue_cases system.heat_level 0 (1 / 4) rfl
    obtain ⟨_, _, h1⟩ := ledValue_cases system.heat_level 1 (1 / 2) rfl
    obtain ⟨_, _, h2⟩ := ledValue_cases system.heat_level 2 (3 / 4) rfl
    refine ⟨?_, ?_, ?_⟩
    · simp only [h0 h9]; rfl
    · simp only [h1 h9]; rfl
    · simp only [h2 h9]; rfl

/-- Witness of C12: slot 5 at heat 0.6, where the rows 0 and 1 are lit and row 2 is off. -/
theorem C12_heat_indicators_witness :
    ∃ value : Nat → UChar,
      (∀ j, j < 3 → ∃ note : UChar, note.val = (2 - j) * 8 + 5 ∧
        ledMessage ⟨1, 2, 3 / 5, 1⟩ 5 j = some [0x91, note, value j]) ∧
      ledLoop ⟨1, 2, 3 / 5, 1⟩ 5 (List.range 3) =
        some [[0x91, toUChar (16 + 5), value 0], [0x91, toUChar (8 + 5), value 1],
          [0x91, toUChar 5, value 2]] ∧
      (∀ j t, [1 / 4, 1 / 2, 3 / 4][j]? = some t →
        ((⟨1, 2, 3 / 5, 1⟩ : ShipSystem).heat_level < t → value j = 0) ∧
        (t ≤ (⟨1, 2, 3 / 5, 1⟩ : ShipSystem).heat_level →
          (⟨1, 2, 3 / 5, 1⟩ : ShipSystem).heat_level < 9 / 10 → value j = 2) ∧
        (9 / 10 ≤ (⟨1, 2, 3 / 5, 1⟩ : ShipSystem).heat_level → value j = 3)) ∧
      (∀ j, j < 3 → value j = 0 ∨ value j = 2 ∨ value j = 3) ∧
      (∀ j k, k < j → j < 3 → value j ≠ 0 → value k ≠ 0) ∧
      (9 / 10 ≤ (⟨1, 2, 3 / 5, 1⟩ : ShipSystem).heat_level →
        value 0 = 3 ∧ value 1 = 3 ∧ value 2 = 3) :=
  C12_heat_indicators ⟨1, 2, 3 / 5, 1⟩ 5 (by decide)

/-- The messages of one slot are bytes within the MIDI data range, for telemetry in range. -/
theorem slot_bytes_valid (system : ShipSystem) (s : Nat) (hs : s < 8) (h : system.inRange) :
    ∀ m ∈ (expectedSlotMessages system s).map (List.map toUChar),
      ∃ status data1 data2 : UChar, m = [status, data1, data2] ∧
        data1.val ≤ 25 ∧ data1.val ≤ 127 ∧ data2.val ≤ 127 ∧
        (status = 0x91 → data2.val = 0 ∨ data2.val = 2 ∨ data2.val = 3) := by
  intro m hm
  obtain ⟨m0, hm0, rfl⟩ := List.mem_map.mp hm
  obtain ⟨st, d1, d2, rfl, hst, h1, h2, h3⟩ := expectedSlotMessages_bounds system s hs h m0 hm0
  refine ⟨toUChar st, toUChar d1, toUChar d2, rfl, ?_, ?_, ?_, ?_⟩
  · rw [toUChar_val d1 (by omega)]; exact h1
  · rw [toUChar_val d1 (by omega)]; omega
  · rw [toUChar_val d2 (by omega)]; exact h2
  · intro hst2
    rw [toUChar_val d2 (by omega)]
    apply h3
    rcases hst with rfl | rfl
    · exact absurd hst2 (by decide)
    · rfl

/-- C16, the code at a failing input: with power request 4.0, coolant request 12 and
health -1 the messages of slot 0 carry the values 169, 152 and 254, all above 127: no value is
clamped to 127.  The one clamp of `sendMidiOut`, `std::max(0, .)` on the damage value, acts
from below only: health 2 gives the damage byte 0. -/
theorem C16_bytes_above_127 :
    (sendMidiOut (fun _ => ⟨4, 12, 0, -1⟩)
        [ESystem.sys 0, ESystem.sys 1, ESystem.sys 2, ESystem.sys 3, ESystem.sys 4,
          ESystem.sys 5, ESystem.sys 6, ESystem.sys 7]).map
        (fun messages => byteValues (messages.take 6)) =
      some [[0xb0, 1, 169], [0xb0, 10, 152], [0x91, 16, 0], [0x91, 8, 0], [0x91, 0, 0],
        [0xb0, 18, 254]] ∧
    (sendMidiOut (fun _ => ⟨0, 0, 0, 2⟩)
        [ESystem.sys 0, ESystem.sys 1, ESystem.sys 2, ESystem.sys 3, ESystem.sys 4,
          ESystem.sys 5, ESystem.sys 6, ESystem.sys 7]).map
        (fun messages => byteValues (messages.take 6)) =
      some [[0xb0, 1, 0], [0xb0, 10, 0], [0x91, 16, 0], [0x91, 8, 0], [0x91, 0, 0],
        [0xb0, 18, 0]] := by
  decide!

/-- The bytes of the whole emission when the telemetry is in range.  For every 8-slot map and
every telemetry snapshot in which the power request is in `[0,3]`, the coolant request in
`[0,10]` and the health in `[0,1]` at the lookup of every slot, `sendMidiOut` sends its messages
and every data byte (`data1` and `data2`) of every one of them lies in `0..127`. -/
theorem sendMidiOut_bytes_valid (systems : ESystem → ShipSystem) (systemMap : List ESystem)
    (hlen : systemMap.length = 8)
    (hrange : ∀ s, s < 8 → (systems (systemMap.getD s ESystem.SYS_None)).inRange) :
    ∃ messages, sendMidiOut systems systemMap = some messages ∧
      ∀ m ∈ messages, ∃ status data1 data2 : UChar,
        m = [status, data1, data2] ∧ data1.val ≤ 127 ∧ data2.val ≤ 127 := by
  have hsend := sendLoop_eq systems systemMap (List.range systemMap.length) (by
    intro i hi
    rw [List.mem_range] at hi
    exact ⟨hi, hrange i (hlen ▸ hi)⟩)
  refine ⟨_, hsend, ?_⟩
  intro m hm
  obtain ⟨i, hi, hmi⟩ := List.mem_flatMap.mp hm
  rw [List.mem_range, hlen] at hi
  obtain ⟨st, d1, d2, rfl, _, h1, h2, _⟩ := slot_bytes_valid _ i hi (hrange i hi) m hmi
  exact ⟨st, d1, d2, rfl, h1, h2⟩

/-- An instance of the lemma: eight subsystems at full power, full coolant and health 0. -/
theorem sendMidiOut_bytes_valid_example :
    ∃ messages,
      sendMidiOut (fun _ => ⟨3, 10, 1, 0⟩)
        [ESystem.sys 0, ESystem.sys 1, ESystem.sys 2, ESystem.sys 3, ESystem.sys 4,
          ESystem.sys 5, ESystem.sys 6, ESystem.sys 7] = some messages ∧
      ∀ m ∈ messages, ∃ status data1 data2 : UChar,
        m = [status, data1, data2] ∧ data1.val ≤ 127 ∧ data2.val ≤ 127 :=
  sendMidiOut_bytes_valid (fun _ => ⟨3, 10, 1, 0⟩)
    [ESystem.sys 0, ESystem.sys 1, ESystem.sys 2, ESystem.sys 3, ESystem.sys 4,
      ESystem.sys 5, ESystem.sys 6, ESystem.sys 7] rfl
    (fun _ _ => by unfold ShipSystem.inRange; norm_num)

/-- C19: for every slot `s` in `0..7` and telemetry with power request in `[0,3]`, coolant
request in `[0,10]`, health in `[0,1]` and any heat level, the iteration of `sendMidiOut` for
that slot sends six 3-byte messages whose `data1` and `data2` lie in `0..127`: control and
note numbers are at most 25, and the values of the note-on (LED) messages are 0, 2 or 3. -/
theorem C19_slot_bytes_valid (system : ShipSystem) (s : Nat) (hs : s < 8)
    (h : system.inRange) :
    ∃ messages, slotMessages system s = some messages ∧ messages.length = 6 ∧
      ∀ m ∈ messages, ∃ status data1 data2 : UChar, m = [status, data1, data2] ∧
        data1.val ≤ 25 ∧ data1.val ≤ 127 ∧ data2.val ≤ 127 ∧
        (status = 0x91 → data2.val = 0 ∨ data2.val = 2 ∨ data2.val = 3) :=
  ⟨_, slotMessages_eq system s h, rfl, slot_bytes_valid system s hs h⟩

/-- Witness of C19: slot 7 at power 1.5, coolant 5, heat 0.95 and health 0.25. -/
theorem C19_slot_bytes_valid_witness :
    ∃ messages, slotMessages ⟨3 / 2, 5, 19 / 20, 1 / 4⟩ 7 = some messages ∧
      messages.length = 6 ∧
      ∀ m ∈ messages, ∃ status data1 data2 : UChar, m = [status, data1, data2] ∧
        data1.val ≤ 25 ∧ data1.val ≤ 127 ∧ data2.val ≤ 127 ∧
        (status = 0x91 → data2.val = 0 ∨ data2.val = 2 ∨ data2.val = 3) :=
  C19_slot_bytes_valid ⟨3 / 2, 5, 19 / 20, 1 / 4⟩ 7 (by decide)
    (by unfold ShipSystem.inRange; norm_num)

/-- The byte of a rounded value in `[0, 127]`, read back as a rational, is the rounded
value. -/
theorem toUChar_round_val (x : ℚ) (h0 : 0 ≤ x) (h1 : x ≤ 127) :
    (((toUChar (round x).toNat).val : ℕ) : ℚ) = (round x : ℚ) := by
  obtain ⟨ha, hb⟩ := round_mem_byte_range x h0 h1
  rw [toUChar_val _ (by omega)]
  have hz : (((round x).toNat : ℕ) : ℤ) = round x := Int.toNat_of_nonneg ha
  exact_mod_cast congrArg (fun z : ℤ => (z : ℚ)) hz

/-- C15: round trip of the scaling.  For a slot `s` in `0..7` and telemetry in range, the first
message of the slot (the fader, control number `s+1`, byte `round(v/3*127)`) decodes to a POWER
update for the same slot `s` whose value `b*3/127` is within `3/127` of the power request `v`,
and the second (the encoder, control number `10+s`, byte `round(v/10*127)`) decodes to a
COOLANT update for slot `s` whose value `b*10/127` is within `10/127` of the coolant request. -/
theorem C15_round_trip (system : ShipSystem) (s : Nat) (hs : s < 8) (h : system.inRange) :
    ∃ fader encoder later power coolant,
      slotMessages system s = some (fader :: encoder :: later) ∧
      interpretReceivedMessage fader = some ⟨InputUpdateType.POWER, power, s⟩ ∧
      |power - system.power_request| ≤ 3 / 127 ∧
      interpretReceivedMessage encoder = some ⟨InputUpdateType.COOLANT, coolant, s⟩ ∧
      |coolant - system.coolant_request| ≤ 10 / 127 := by
  have hse := slotMessages_eq system s h
  obtain ⟨hp0, hp3, hc0, hc10, hh0, hh1⟩ := h
  have hx0 : (0 : ℚ) ≤ system.power_request / 3 * 127 := by linarith
  have hx1 : system.power_request / 3 * 127 ≤ 127 := by linarith
  have hy0 : (0 : ℚ) ≤ system.coolant_request / 10 * 127 := by linarith
  have hy1 : system.coolant_request / 10 * 127 ≤ 127 := by linarith
  have hst : (toUChar 0xb0).val / 16 = 0xb := by decide
  have hst9 : ¬ (toUChar 0xb0).val / 16 = 0x9 := by decide
  have hd1 : (toUChar (s + 1)).val = s + 1 := toUChar_val _ (by omega)
  have hd2 : (toUChar (10 + s)).val = 10 + s := toUChar_val _ (by omega)
  have hrp := abs_le.mp (abs_sub_round (system.power_request / 3 * 127))
  have hrc := abs_le.mp (abs_sub_round (system.coolant_request / 10 * 127))
  refine ⟨[toUChar 0xb0, toUChar (s + 1),
      toUChar (round (system.power_request / 3 * 127)).toNat],
    [toUChar 0xb0, toUChar (10 + s), toUChar (round (system.coolant_request / 10 * 127)).toNat],
    _, (round (system.power_request / 3 * 127) : ℚ) * 3 / 127,
    (round (system.coolant_request / 10 * 127) : ℚ) * 10 / 127, hse, ?_, ?_, ?_, ?_⟩
  · rw [interpret_three, if_neg hst9, if_pos hst, hd1, if_pos ⟨by omega, by omega⟩,
      toUChar_round_val _ hx0 hx1]
    rfl
  · rw [abs_le]
    constructor <;> linarith [hrp.1, hrp.2]
  · rw [interpret_three, if_neg hst9, if_pos hst, hd2, if_neg (by omega),
      if_pos ⟨by omega, by omega⟩, toUChar_round_val _ hy0 hy1]
    congr 2
    omega
  · rw [abs_le]
    constructor <;> linarith [hrc.1, hrc.2]

/-- Witness of C15: slot 3 at power 1 and coolant 7. -/
theorem C15_round_trip_witness :
    ∃ fader encoder later power coolant,
      slotMessages ⟨1, 7, 0, 1⟩ 3 = some (fader :: encoder :: later) ∧
      interpretReceivedMessage fader = some ⟨InputUpdateType.POWER, power, 3⟩ ∧
      |power - (⟨1, 7, 0, 1⟩ : ShipSystem).power_request| ≤ 3 / 127 ∧
      interpretReceivedMessage encoder = some ⟨InputUpdateType.COOLANT, coolant, 3⟩ ∧
      |coolant - (⟨1, 7, 0, 1⟩ : ShipSystem).coolant_request| ≤ 10 / 127 :=
  C15_round_trip ⟨1, 7, 0, 1⟩ 3 (by decide) (by unfold ShipSystem.inRange; norm_num)

/-! ### Initialisation, index safety and the update tick -/

/-- C18: the initialisation handshake sends exactly 16 messages, in ascending order of control
number: `[0xB1, i, 2]` for `i = 10, 11, ..., 25`, and nothing else. -/
theorem C18_initialization_messages :
    sendInitialization.length = 16 ∧
    byteValues sendInitialization =
      [[0xb1, 10, 2], [0xb1, 11, 2], [0xb1, 12, 2], [0xb1, 13, 2], [0xb1, 14, 2],
        [0xb1, 15, 2], [0xb1, 16, 2], [0xb1, 17, 2], [0xb1, 18, 2], [0xb1, 19, 2],
        [0xb1, 20, 2], [0xb1, 21, 2], [0xb1, 22, 2], [0xb1, 23, 2], [0xb1, 24, 2],
        [0xb1, 25, 2]] ∧
    byteValues sendInitialization = (List.range 16).map (fun k => [0xb1, 10 + k, 2]) := by
  refine ⟨by decide, by decide, by decide⟩

/-- A message of at least three bytes decodes to an update. -/
theorem interpret_three_defined (s d1 d2 : UChar) (rest : List UChar) :
    ∃ u, interpretReceivedMessage (s :: d1 :: d2 :: rest) = some u := by
  rw [interpret_three]
  split_ifs with a b
  · rw [buttonPowerLevels_lookup d1.val b.1 b.2]
    exact ⟨_, rfl⟩
  all_goals exact ⟨_, rfl⟩

/-- C20: every 3-byte message decodes to an update whose index is below 8, so that the store
into `newPowerRequests` or `newCoolantRequests` (arrays of `SYS_COUNT` entries, the first 8
initialised, which needs `8 ≤ SYS_COUNT`) is in bounds; and in the button branch the table
index `2 - (data1-16)/8`, computed on `unsigned int`, does not wrap and is one of 0, 1, 2, the
positions of the 3-entry preset table. -/
theorem C20_index_safety (status data1 data2 : UChar) :
    ∃ u, interpretReceivedMessage [status, data1, data2] = some u ∧ u.index < 8 ∧
      (∀ SYS_COUNT requests, initRequests SYS_COUNT 8 = some requests →
        (storeAt requests u.index (some u.value)).isSome = true) ∧
      (status.val &&& 0xf0 = 0x90 → 16 ≤ data1.val → data1.val ≤ 39 →
        (data1.val - 16) % 4294967296 / 8 ≤ 2 ∧
        (2 + 4294967296 - (data1.val - 16) % 4294967296 / 8) % 4294967296 =
          2 - (data1.val - 16) / 8 ∧
        2 - (data1.val - 16) / 8 < buttonPowerLevels.length) := by
  obtain ⟨u, hu⟩ := interpret_three_defined status data1 data2 []
  have hidx := interpret_index_lt _ u hu
  refine ⟨u, hu, hidx, ?_, ?_⟩
  · intro n requests hreq
    unfold initRequests at hreq
    split_ifs at hreq with h8
    simp only [Option.some.injEq] at hreq
    subst hreq
    unfold storeAt
    rw [if_pos (by rw [List.length_replicate]; omega)]
    rfl
  · intro _ h16 h39
    have hlen : buttonPowerLevels.length = 3 := rfl
    rw [hlen]
    omega

/-- Witness of C20: the last button of the grid (note 39), where `buttonIndex/8` is 2 and the
table index is 0. -/
theorem C20_index_safety_witness :
    ∃ u, interpretReceivedMessage [0x91, 39, 0] = some u ∧ u.index < 8 ∧
      ((39 : UChar).val - 16) % 4294967296 / 8 ≤ 2 ∧
      (2 + 4294967296 - ((39 : UChar).val - 16) % 4294967296 / 8) % 4294967296 =
        2 - ((39 : UChar).val - 16) / 8 ∧
      2 - ((39 : UChar).val - 16) / 8 < buttonPowerLevels.length := by
  obtain ⟨u, h1, h2, _, h4⟩ := C20_index_safety 0x91 39 0
  exact ⟨u, h1, h2, h4 (by decide) (by decide) (by decide)⟩

/-- C17: when the vessel model is absent (`my_spaceship` is null), `update(delta)` is a no-op for
every delta and every state, whatever the ports: the slot map and the accumulator are unchanged,
the input queue is left as it is, no command is issued and `sendMidiOut` is not called. -/
theorem C17_no_ship_no_op (SYS_COUNT : Nat) (midiinOpen midioutOpen : Bool)
    (queue : List (List UChar)) (delta : ℚ) (state : State) :
    ∃ next effects,
      update SYS_COUNT midiinOpen midioutOpen none queue delta state = some (next, effects) ∧
      next.systemMap = state.systemMap ∧ next.timeSinceUpdate = state.timeSinceUpdate ∧
      effects.queue = queue ∧ effects.commands = [] ∧ effects.sent = none :=
  ⟨state, ⟨[], none, queue⟩, rfl, rfl, rfl, rfl, rfl, rfl⟩

/-- The slot-mapping loop keeps the number of slots. -/
theorem updateSystemMapLoop_length (hasSystem : Nat → Bool) :
    ∀ (is : List Nat) (j : Nat) (systemMap : List ESystem),
      (updateSystemMapLoop hasSystem is j systemMap).length = systemMap.length
  | [], _, _ => rfl
  | i :: rest, j, m => by
    unfold updateSystemMapLoop
    split_ifs
    · rfl
    · rw [updateSystemMapLoop_length hasSystem rest (j + 1), List.length_set]
    · exact updateSystemMapLoop_length hasSystem rest j m

/-- One call of `update` on a regular tick with the output port open: it is defined, keeps the 8
slots, calls `sendMidiOut` exactly when the accumulator plus the delta reaches 0.3, and then
resets the accumulator to 0; otherwise the accumulator keeps the sum. -/
theorem update_regular (SYS_COUNT : Nat) (midiinOpen : Bool) (tick : Tick) (state : State)
    (hlen : state.systemMap.length = 8) (hreg : tick.regular SYS_COUNT midiinOpen) :
    ∃ systemMap effects,
      update SYS_COUNT midiinOpen true tick.my_spaceship tick.queue tick.delta state =
        some (⟨if 3 / 10 ≤ state.timeSinceUpdate + tick.delta then 0
          else state.timeSinceUpdate + tick.delta, systemMap⟩, effects) ∧
      systemMap.length = 8 ∧
      effects.sent.isSome = decide (3 / 10 ≤ state.timeSinceUpdate + tick.delta) := by
  obtain ⟨ship, hship, hrange, hin⟩ := hreg
  have hmap : (updateSystemMap SYS_COUNT ship.hasSystem state.systemMap).length = 8 := by
    unfold updateSystemMap
    rw [updateSystemMapLoop_length, hlen]
  have hsend : sendMidiOut ship.systems
      (updateSystemMap SYS_COUNT ship.hasSystem state.systemMap) = some _ :=
    sendLoop_eq ship.systems
      (updateSystemMap SYS_COUNT ship.hasSystem state.systemMap)
      (List.range (updateSystemMap SYS_COUNT ship.hasSystem state.systemMap).length) (by
        intro i hi
        rw [List.mem_range] at hi
        exact ⟨hi, hrange _⟩)
  rw [hship]
  unfold update
  cases midiinOpen with
  | true =>
    have hc := checkMidiIn_eq_expectedCommands SYS_COUNT _ tick.queue (hin rfl).1 hmap
      (hin rfl).2
    simp only [hc, hsend, Option.bind_eq_bind, Option.some_bind, Option.pure_def, if_true]
    by_cases hdue : 3 / 10 ≤ state.timeSinceUpdate + tick.delta
    · simp only [if_pos hdue, Option.some_bind]
      exact ⟨_, _, rfl, hmap, by simp [hdue]⟩
    · simp only [if_neg hdue]
      exact ⟨_, _, rfl, hmap, by simp [hdue]⟩
  | false =>
    simp only [hsend, Option.bind_eq_bind, Option.some_bind, Option.pure_def, if_true,
      Bool.false_eq_true, if_false]
    by_cases hdue : 3 / 10 ≤ state.timeSinceUpdate + tick.delta
    · simp only [if_pos hdue, Option.some_bind]
      exact ⟨_, _, rfl, hmap, by simp [hdue]⟩
    · simp only [if_neg hdue]
      exact ⟨_, _, rfl, hmap, by simp [hdue]⟩

/-- The sum since the last rendering after one more tick. -/
theorem sinceRendering_concat (record : List (ℚ × Bool)) (d : ℚ) (r : Bool) :
    sinceRendering (record ++ [(d, r)]) = if r = true then 0 else sinceRendering record + d := by
  unfold sinceRendering
  rw [List.reverse_append, List.reverse_singleton, List.singleton_append, List.takeWhile_cons]
  cases r
  · simp only [Bool.not_false, if_true, List.map_cons, List.sum_cons, Bool.false_eq_true,
      if_false]
    ring
  · simp only [Bool.not_true, Bool.false_eq_true, if_false, List.map_nil, List.sum_nil, if_true]

/-- The record of a run, tick by tick. -/
theorem renderTrace_cons (tick : Tick) (ticks : List Tick) (e : Effects) (es : List Effects) :
    renderTrace (tick :: ticks) (e :: es) =
      (tick.delta, e.sent.isSome) :: renderTrace ticks es :=
  rfl

/-- One step of a run whose first call of `update` is known. -/
theorem run_cons_eq (SYS_COUNT : Nat) (midiinOpen midioutOpen : Bool) (tick : Tick)
    (rest : List Tick) (state next final : State) (e : Effects) (es : List Effects)
    (hu : update SYS_COUNT midiinOpen midioutOpen tick.my_spaceship tick.queue tick.delta
      state = some (next, e))
    (hr : run SYS_COUNT midiinOpen midioutOpen rest next = some (final, es)) :
    run SYS_COUNT midiinOpen midioutOpen (tick :: rest) state = some (final, e :: es) := by
  unfold run
  rw [hu]
  simp only [Option.bind_eq_bind, Option.some_bind, hr, Option.pure_def]

/-- A run of regular ticks with the output port open, from any accumulator that is the sum
since the last rendering of an earlier record: it is defined, and rendering runs on a tick
exactly when the sum since the last rendering, this tick included, reaches 0.3. -/
theorem run_suppression (SYS_COUNT : Nat) (midiinOpen : Bool) :
    ∀ (ticks : List Tick) (state : State) (before : List (ℚ × Bool)),
      state.systemMap.length = 8 → (∀ t ∈ ticks, t.regular SYS_COUNT midiinOpen) →
      state.timeSinceUpdate = sinceRendering before →
      ∃ final effects,
        run SYS_COUNT midiinOpen true ticks state = some (final, effects) ∧
        effects.length = ticks.length ∧
        ∀ pre p post, renderTrace ticks effects = pre ++ p :: post →
          (p.2 = true ↔ 3 / 10 ≤ sinceRendering (before ++ pre) + p.1)
  | [], state, before, _, _, _ => by
    refine ⟨state, [], rfl, rfl, ?_⟩
    intro pre p post h
    have hnil : renderTrace [] ([] : List Effects) = [] := rfl
    rw [hnil] at h
    have hlen0 := congrArg List.length h
    rw [List.length_append, List.length_cons, List.length_nil] at hlen0
    omega
  | tick :: rest, state, before, hlen, hreg, hacc => by
    obtain ⟨systemMap, e, hu, hmap, hsent⟩ := update_regular SYS_COUNT midiinOpen tick state hlen
      (hreg tick (List.mem_cons_self tick rest))
    have hnext : (if 3 / 10 ≤ state.timeSinceUpdate + tick.delta then (0 : ℚ)
        else state.timeSinceUpdate + tick.delta) =
        sinceRendering (before ++ [(tick.delta, e.sent.isSome)]) := by
      rw [sinceRendering_concat, hsent, ← hacc]
      by_cases hdue : 3 / 10 ≤ state.timeSinceUpdate + tick.delta <;> simp [hdue]
    obtain ⟨final, es, hr, hl, hall⟩ := run_suppression SYS_COUNT midiinOpen rest
      ⟨if 3 / 10 ≤ state.timeSinceUpdate + tick.delta then 0
        else state.timeSinceUpdate + tick.delta, systemMap⟩
      (before ++ [(tick.delta, e.sent.isSome)]) hmap
      (fun t ht => hreg t (List.mem_cons_of_mem tick ht)) hnext
    refine ⟨final, e :: es, run_cons_eq _ _ _ _ _ _ _ _ _ _ hu hr, by
      rw [List.length_cons, List.length_cons, hl], ?_⟩
    intro pre p post h
    rw [renderTrace_cons] at h
    cases pre with
    | nil =>
      rw [List.nil_append] at h
      have hp : p = (tick.delta, e.sent.isSome) := (List.cons.inj h).1.symm
      rw [hp, List.append_nil, ← hacc]
      simp only [hsent, decide_eq_true_eq]
    | cons q pre2 =>
      rw [List.cons_append] at h
      obtain ⟨hq, hrest⟩ := List.cons.inj h
      have := hall pre2 p post hrest
      rw [List.append_assoc, List.singleton_append, hq] at this
      exact this

/-- C13: output suppression.  For every sequence of update ticks with a vessel present whose
telemetry is in range, the output port open and the accumulator initially 0, rendering runs on
a tick only if (indeed exactly if) the sum of the deltas of all ticks since the previous
rendering, or since the start for the first rendering, the current tick included, is at least
0.3 seconds; so two successive renderings are never separated by less than 300 ms of
accumulated time. -/
theorem C13_output_suppression (SYS_COUNT : Nat) (midiinOpen : Bool) (ticks : List Tick)
    (state : State) (hacc : state.timeSinceUpdate = 0) (hlen : state.systemMap.length = 8)
    (hreg : ∀ t ∈ ticks, t.regular SYS_COUNT midiinOpen) :
    ∃ final effects,
      run SYS_COUNT midiinOpen true ticks state = some (final, effects) ∧
      effects.length = ticks.length ∧
      ∀ pre p post, renderTrace ticks effects = pre ++ p :: post →
        (p.2 = true ↔ 3 / 10 ≤ sinceRendering pre + p.1) := by
  obtain ⟨final, effects, hr, hl, hall⟩ :=
    run_suppression SYS_COUNT midiinOpen ticks state [] hlen hreg (by rw [hacc]; rfl)
  exact ⟨final, effects, hr, hl, fun pre p post h => by
    have := hall pre p post h
    rwa [List.nil_append] at this⟩

/-- A tick with the idle ship is regular when the input port is closed. -/
theorem idleTick_regular (SYS_COUNT : Nat) (delta : ℚ) :
    (idleTick delta).regular SYS_COUNT false :=
  ⟨idleShip, rfl, fun _ => by unfold ShipSystem.inRange idleShip; norm_num,
    fun h => absurd h (by decide)⟩

/-- Witness of C13: three ticks of 0.2 s with the idle ship, input port closed. -/
theorem C13_output_suppression_witness :
    ∃ final effects,
      run 9 false true [idleTick (1 / 5), idleTick (1 / 5), idleTick (1 / 5)] initialState =
        some (final, effects) ∧
      effects.length = [idleTick (1 / 5), idleTick (1 / 5), idleTick (1 / 5)].length ∧
      ∀ pre p post,
        renderTrace [idleTick (1 / 5), idleTick (1 / 5), idleTick (1 / 5)] effects =
          pre ++ p :: post →
        (p.2 = true ↔ 3 / 10 ≤ sinceRendering pre + p.1) :=
  C13_output_suppression 9 false [idleTick (1 / 5), idleTick (1 / 5), idleTick (1 / 5)]
    initialState rfl rfl (fun t ht => by
      simp only [List.mem_cons, List.mem_singleton, List.not_mem_nil, or_false, or_self] at ht
      rw [ht]
      exact idleTick_regular 9 (1 / 5))

/-- C14, as stated, fails: three ticks of 0.2 s give a total of 0.6 s, whose quotient by 0.3
has floor 2, but rendering runs once (on the second tick, after which the accumulator restarts
from 0 and the third tick only brings it to 0.2). -/
theorem C14_one_rendering_counterexample :
    (run 9 false true [idleTick (1 / 5), idleTick (1 / 5), idleTick (1 / 5)] initialState).map
        (fun r =>
          (r.2.map (fun e => e.sent.isSome),
            renderings
              (renderTrace [idleTick (1 / 5), idleTick (1 / 5), idleTick (1 / 5)] r.2),
            ⌊elapsed (renderTrace [idleTick (1 / 5), idleTick (1 / 5), idleTick (1 / 5)] r.2) /
              (3 / 10)⌋)) =
      some ([false, true, false], 1, 2) := by
  decide!

/-- The bounds a run keeps between the number of renderings and the elapsed time, from any
accumulator `a` in `[0, 0.3)`: with `N` renderings, total `T` and final accumulator `b`,
`0.3 N ≤ a + T - b ≤ 0.6 N` and `0 ≤ b < 0.3`, when every delta is positive and at most 0.3. -/
theorem run_rendering_bounds (SYS_COUNT : Nat) (midiinOpen : Bool) :
    ∀ (ticks : List Tick) (state : State),
      state.systemMap.length = 8 → (∀ t ∈ ticks, t.regular SYS_COUNT midiinOpen) →
      (∀ t ∈ ticks, 0 < t.delta ∧ t.delta ≤ 3 / 10) →
      0 ≤ state.timeSinceUpdate → state.timeSinceUpdate < 3 / 10 →
      ∃ final effects,
        run SYS_COUNT midiinOpen true ticks state = some (final, effects) ∧
        3 / 10 * (renderings (renderTrace ticks effects) : ℚ) ≤
          state.timeSinceUpdate + elapsed (renderTrace ticks effects) -
            final.timeSinceUpdate ∧
        state.timeSinceUpdate + elapsed (renderTrace ticks effects) - final.timeSinceUpdate ≤
          6 / 10 * (renderings (renderTrace ticks effects) : ℚ) ∧
        0 ≤ final.timeSinceUpdate ∧ final.timeSinceUpdate < 3 / 10
  | [], state, _, _, _, h0, h1 => by
    refine ⟨state, [], rfl, ?_, ?_, h0, h1⟩
    · simp [renderTrace, renderings, elapsed]
    · simp [renderTrace, renderings, elapsed]
  | tick :: rest, state, hlen, hreg, hdelta, h0, h1 => by
    obtain ⟨systemMap, e, hu, hmap, hsent⟩ := update_regular SYS_COUNT midiinOpen tick state hlen
      (hreg tick (List.mem_cons_self tick rest))
    obtain ⟨hd0, hd1⟩ := hdelta tick (List.mem_cons_self tick rest)
    have hnext0 : (0 : ℚ) ≤ (if 3 / 10 ≤ state.timeSinceUpdate + tick.delta then (0 : ℚ)
        else state.timeSinceUpdate + tick.delta) := by
      split_ifs <;> linarith
    have hnext1 : (if 3 / 10 ≤ state.timeSinceUpdate + tick.delta then (0 : ℚ)
        else state.timeSinceUpdate + tick.delta) < 3 / 10 := by
      split_ifs with hdue
      · norm_num
      · exact not_le.mp hdue
    obtain ⟨final, es, hr, hlo, hhi, hf0, hf1⟩ := run_rendering_bounds SYS_COUNT midiinOpen rest
      ⟨if 3 / 10 ≤ state.timeSinceUpdate + tick.delta then 0
        else state.timeSinceUpdate + tick.delta, systemMap⟩ hmap
      (fun t ht => hreg t (List.mem_cons_of_mem tick ht))
      (fun t ht => hdelta t (List.mem_cons_of_mem tick ht)) hnext0 hnext1
    refine ⟨final, e :: es, run_cons_eq _ _ _ _ _ _ _ _ _ _ hu hr, ?_, ?_, hf0, hf1⟩
    all_goals
      rw [renderTrace_cons]
      simp only [renderings, elapsed, List.map_cons, List.sum_cons, List.filter_cons, hsent]
        at hlo hhi ⊢
      by_cases hdue : 3 / 10 ≤ state.timeSinceUpdate + tick.delta
      · simp only [hdue, decide_True, if_true, List.length_cons, Nat.cast_add, Nat.cast_one]
          at hlo hhi ⊢
        linarith
      · simp only [hdue, decide_False, if_false, Bool.false_eq_true] at hlo hhi ⊢
        linarith

/-- C14, amended: for every sequence of ticks (vessel present with telemetry in range, output
port open, accumulator initially 0) whose deltas are each positive and at most 0.3, the number
`N` of renderings after total elapsed time `T` is at most `floor(T / 0.3)`, and `T` is less
than `0.6 N + 0.3`: each rendering uses up at least 0.3 s and less than 0.6 s of accumulated
time, since the accumulator restarts from 0 at a rendering. -/
theorem C14_rendering_count_bounds (SYS_COUNT : Nat) (midiinOpen : Bool) (ticks : List Tick)
    (state : State) (hacc : state.timeSinceUpdate = 0) (hlen : state.systemMap.length = 8)
    (hreg : ∀ t ∈ ticks, t.regular SYS_COUNT midiinOpen)
    (hdelta : ∀ t ∈ ticks, 0 < t.delta ∧ t.delta ≤ 3 / 10) :
    ∃ final effects,
      run SYS_COUNT midiinOpen true ticks state = some (final, effects) ∧
      (renderings (renderTrace ticks effects) : ℤ) ≤
        ⌊elapsed (renderTrace ticks effects) / (3 / 10)⌋ ∧
      elapsed (renderTrace ticks effects) <
        6 / 10 * (renderings (renderTrace ticks effects) : ℚ) + 3 / 10 := by
  obtain ⟨final, effects, hr, hlo, hhi, hf0, hf1⟩ :=
    run_rendering_bounds SYS_COUNT midiinOpen ticks state hlen hreg hdelta
      (by rw [hacc]) (by rw [hacc]; norm_num)
  rw [hacc] at hlo hhi
  refine ⟨final, effects, hr, ?_, by linarith⟩
  rw [Int.le_floor, le_div_iff₀ (by norm_num)]
  push_cast
  linarith

/-- Witness of C14 amended: three ticks of 0.2 s with the idle ship, input port closed. -/
theorem C14_rendering_count_bounds_witness :
    ∃ final effects,
      run 9 false true [idleTick (1 / 5), idleTick (1 / 5), idleTick (1 / 5)] initialState =
        some (final, effects) ∧
      (renderings
          (renderTrace [idleTick (1 / 5), idleTick (1 / 5), idleTick (1 / 5)] effects) : ℤ) ≤
        ⌊elapsed (renderTrace [idleTick (1 / 5), idleTick (1 / 5), idleTick (1 / 5)] effects) /
          (3 / 10)⌋ ∧
      elapsed (renderTrace [idleTick (1 / 5), idleTick (1 / 5), idleTick (1 / 5)] effects) <
        6 / 10 *
          (renderings
            (renderTrace [idleTick (1 / 5), idleTick (1 / 5), idleTick (1 / 5)] effects) : ℚ) +
          3 / 10 :=
  C14_rendering_count_bounds 9 false [idleTick (1 / 5), idleTick (1 / 5), idleTick (1 / 5)]
    initialState rfl rfl
    (fun t ht => by
      simp only [List.mem_cons, List.mem_singleton, List.not_mem_nil, or_false, or_self] at ht
      rw [ht]
      exact idleTick_regular 9 (1 / 5))
    (fun t ht => by
      simp only [List.mem_cons, List.mem_singleton, List.not_mem_nil, or_false, or_self] at ht
      rw [ht]
      exact ⟨by unfold idleTick; norm_num, by unfold idleTick; norm_num⟩)

end MidiController
